import Mathlib

/-!
# AddressPool admission validation (api/v1beta1/addresspool_webhook.go)

A shallow embedding of the validating webhook of the MetalLB operator's
`AddressPool` resource, and theorems about it.

* Go `error` results are `Except ValidationError Unit`; every `return fmt.Errorf(...)`
  or `errors.Wrapf(...)` site of the source has its own constructor carrying the
  values the message is formatted from.
* `net.IPNet` is a pair of byte slices, with `IP.To4` and `IPMask.Size` as in
  Go's `net` package.
* `parseCIDR` and `cidrsOverlap` are functions of the package that live in another
  file; the validators take them as the fields of `Collaborators`, so that every
  general theorem holds for any implementation of them.  `specCollaborators` is
  the implementation the specification describes, used for concrete examples.
* The Go map ranged over in `validateAggregationLength` is a key-unique
  association list, and the unspecified iteration order is the `rangeOrder`
  field of `Collaborators`: an arbitrary permutation of the entries.
-/

namespace AddressPoolWebhook

/-! ## Go standard library: `net.IP`, `net.IPMask`, `net.IPNet` -/

/-- One octet. -/
abbrev Byte := Fin 256

/-- The inner loop of `net.simpleMaskLength`: `for v&0x80 != 0 { n++; v <<= 1 }`.
The first argument bounds the iterations; a `uint8` is zero after eight shifts. -/
def countLeadingOnes : Nat → Byte → Nat → Nat × Byte
  | 0, v, n => (n, v)
  | fuel + 1, v, n =>
    if v.val &&& 0x80 ≠ 0 then countLeadingOnes fuel (v * 2) (n + 1) else (n, v)

/-- Go `net.simpleMaskLength`; `none` stands for the result `-1` (the mask is not
a run of ones followed by a run of zeros). -/
def simpleMaskLength : List Byte → Nat → Option Nat
  | [], n => some n
  | v :: rest, n =>
    if v = 0xff then simpleMaskLength rest (n + 8)
    else
      let r := countLeadingOnes 8 v n
      if r.2 ≠ 0 then none
      else if rest.all (fun b => b = 0) then some r.1 else none

/-- Go `net.IPMask.Size`: the number of leading ones and the number of bits of
the mask, `(0, 0)` for a mask that is not in canonical form. -/
def IPMaskSize (m : List Byte) : Nat × Nat :=
  match simpleMaskLength m 0 with
  | some ones => (ones, m.length * 8)
  | none => (0, 0)

/-- Go `net.IP.To4`: the 4-byte form of an IPv4 address (given in 4 bytes, or in
16 bytes as an IPv4-mapped address), `none` (Go `nil`) otherwise. -/
def IPTo4 (ip : List Byte) : Option (List Byte) :=
  if ip.length = 4 then some ip
  else if ip.length = 16 ∧ (ip.take 10).all (fun b => b = 0)
      ∧ ip.get? 10 = some 0xff ∧ ip.get? 11 = some 0xff then some (ip.drop 12)
  else none

/-- Go `net.IPNet`: an address and a mask. -/
structure IPNet where
  IP : List Byte
  Mask : List Byte
  deriving DecidableEq, Repr

/-- The first result of `c.Mask.Size()`: the length in bits of the network part. -/
def IPNet.ones (c : IPNet) : Nat := (IPMaskSize c.Mask).1

/-- The test `c.IP.To4() != nil`. -/
def IPNet.isIPv4 (c : IPNet) : Bool := (IPTo4 c.IP).isSome

/-- Go conversion `int32(x)` of an integer: wrap into the signed 32-bit range. -/
def toInt32 (x : Int) : Int := (x + 2 ^ 31) % 2 ^ 32 - 2 ^ 31

/-! ## Go standard library: `strings.Split`, `strconv.ParseUint` -/

/-- Go `strings.Split(s, sep)` for a one-character separator, on the characters
of the string: the pieces between the separators (one piece, the whole string,
when there is no separator; the empty string gives one empty piece). -/
def splitOnChar (sep : Char) : List Char → List (List Char)
  | [] => [[]]
  | c :: cs =>
    if c = sep then [] :: splitOnChar sep cs
    else
      match splitOnChar sep cs with
      | [] => [[c]]
      | p :: ps => (c :: p) :: ps

/-- The two errors of `strconv`: `ErrSyntax` and `ErrRange`. -/
inductive NumError where
  | errSyntax
  | errRange
  deriving DecidableEq, Repr

/-- The digit value `strconv.ParseUint` gives to one byte of its input: decimal
digits, then letters of either case counting from 10; `none` is the `default`
branch of the switch.  A character outside ASCII is encoded in bytes that are
all 0x80 or more, which take the `default` branch. -/
def digitValue (c : Char) : Option Nat :=
  if 48 ≤ c.toNat ∧ c.toNat ≤ 57 then some (c.toNat - 48)
  else if c.toNat < 128 ∧ 97 ≤ (c.toNat ||| 32) ∧ (c.toNat ||| 32) ≤ 122 then
    some ((c.toNat ||| 32) - 97 + 10)
  else none

/-- The loop of `strconv.ParseUint` over the bytes of the input, with `n` the
`uint64` accumulator (arithmetic modulo `2^64`). -/
def parseUintLoop (base cutoff maxVal : Nat) : List Char → Nat → Except NumError Nat
  | [], n => .ok n
  | c :: cs, n =>
    match digitValue c with
    | none => .error .errSyntax
    | some d =>
      if d ≥ base then .error .errSyntax
      else if n ≥ cutoff then .error .errRange
      else
        let n10 := (n * base) % 2 ^ 64
        let n1 := (n10 + d) % 2 ^ 64
        if n1 < n10 ∨ n1 > maxVal then .error .errRange
        else parseUintLoop base cutoff maxVal cs n1

/-- Go `strconv.ParseUint(s, base, bitSize)` for an explicit base `2..36` and a
bit size `1..64` (the source calls it with base 10 and bit size 16). -/
def ParseUint (s : List Char) (base bitSize : Nat) : Except NumError Nat :=
  if s = [] then .error .errSyntax
  else parseUintLoop base ((2 ^ 64 - 1) / base + 1) (2 ^ bitSize - 1) s 0

/-! ## The API types -/

/-- Modelled from the spec: the declaration of the type `BgpAdvertisement`, in
another file of the package.  Section 3: an advertisement has an optional
`aggregationLength`, an optional `aggregationLengthV6` and a sequence of
communities.  The validators read the lengths through `*int32` pointers (`none`
is `nil`) and the communities as a `[]string`, where `none` is the `nil` slice
and `some []` an empty one (the two differ for `reflect.DeepEqual`). -/
structure BgpAdvertisement where
  AggregationLength : Option Int
  AggregationLengthV6 : Option Int
  Communities : Option (List String)
  deriving DecidableEq, Repr

/-- The elements of a Go slice: none for the `nil` slice. -/
def sliceElems {α : Type} : Option (List α) → List α
  | none => []
  | some l => l

/-- Modelled from the spec: the declaration of the type `AddressPoolSpec`, in
another file of the package.  Section 3: a pool has a protocol, a sequence of
address specifications and a sequence of advertisements; the validators read
them as `Spec.Protocol`, `Spec.Addresses` and `Spec.BGPAdvertisements`. -/
structure AddressPoolSpec where
  Protocol : String
  Addresses : List String
  BGPAdvertisements : List BgpAdvertisement
  deriving DecidableEq, Repr

/-- Modelled from the spec: the declaration of the type `AddressPool`, in another
file of the package.  Section 3: a pool has a name, its key; the validators
read it as `Name`. -/
structure AddressPool where
  Name : String
  Spec : AddressPoolSpec
  deriving DecidableEq, Repr

/-- The errors of the validation, one constructor for each place of the source
that returns one; wrapping (`errors.Wrapf`) keeps the wrapped error. -/
inductive ValidationError where
  /-- Line 142: `invalid CIDR %q in pool %s`, wrapping the error of `parseCIDR`. -/
  | invalidCIDR (cidr pool cause : String)
  /-- Lines 86 and 113: `Failed to parse addresses for %s`. -/
  | failedToParseAddresses (pool : String) (cause : ValidationError)
  /-- Line 92: `bgpadvertisement config not valid for protocol %s`. -/
  | protocolMismatch (protocol : String)
  /-- Line 96: `invalid bgpadvertisement config`. -/
  | invalidBGPAdvertisement (cause : ValidationError)
  /-- Line 105: `duplicate definition of pool %s`. -/
  | duplicatePool (pool : String)
  /-- Line 120: `CIDR %q in pool %s overlaps with already defined CIDR %q in pool %s`. -/
  | overlappingCIDR (cidr : IPNet) (pool : String) (existingCIDR : IPNet)
      (existingPool : String)
  /-- Line 204: `duplicate definition of bgpadvertisement`. -/
  | duplicateAdvertisement
  /-- Line 215: `duplicate definition of communities`. -/
  | duplicateCommunities
  /-- Line 182: `invalid community string %q`. -/
  | invalidCommunity (community : String)
  /-- Line 187: `invalid first section of community %q: %s`. -/
  | invalidCommunityFirst (section1 : String) (cause : NumError)
  /-- Line 192: `invalid second section of community %q: %s`. -/
  | invalidCommunitySecond (section2 : String) (cause : NumError)
  /-- Line 225: `invalid aggregation length %d for IPv6`. -/
  | aggregationLengthIPv6 (aggregationLength : Int)
  /-- Line 228: `invalid aggregation length %d for IPv4`. -/
  | aggregationLengthIPv4 (aggregationLength : Int)
  /-- Line 235: `failed to parse CIDR %s to validate aggregation length %d`. -/
  | aggregationParse (cidr : String) (aggregationLength : Int) (cause : String)
  /-- Line 253: `invalid aggregation length %d: prefix %d in this pool is more
  specific than the aggregation length for addresses %s`. -/
  | aggregationTooBroad (aggregationLength : Int) (lowest : Nat) (addr : String)
  /-- Line 132: `Failed to get existing addresspool objects`, wrapping the error
  of the client. -/
  | failedToGetExisting (cause : String)
  deriving DecidableEq, Repr

deriving instance DecidableEq for Except

/-- The result of a validator: Go `nil` is `.ok ()`. -/
abbrev Verdict := Except ValidationError Unit

/-- Whether a result is Go `nil` (the object is accepted). -/
def accepted {ε α : Type} : Except ε α → Bool
  | .ok _ => true
  | .error _ => false

/-- The entries of a Go `map[string][]*net.IPNet`, keys pairwise distinct. -/
abbrev CIDRMap := List (String × List IPNet)

/-- The map assignment `m[k] = v`: replace the value of `k`, or add the entry. -/
def mapAssign : CIDRMap → String → List IPNet → CIDRMap
  | [], k, v => [(k, v)]
  | (k0, v0) :: rest, k, v =>
    if k0 = k then (k0, v) :: rest else (k0, v0) :: mapAssign rest k v

/-- What the validators call from outside `addresspool_webhook.go`, and the one
choice the Go runtime makes for them.

* `parseCIDR` resolves one address specification to CIDR blocks, or fails with a
  message;
* `cidrsOverlap` tells whether two blocks overlap;
* `rangeOrder` is the order in which a `for ... range` statement visits the
  entries of a map: some permutation of them. -/
structure Collaborators where
  parseCIDR : String → Except String (List IPNet)
  cidrsOverlap : IPNet → IPNet → Bool
  rangeOrder : CIDRMap → CIDRMap
  rangeOrder_perm : ∀ m : CIDRMap, List.Perm (rangeOrder m) m

/-! ## The validators of `addresspool_webhook.go` -/

/-- The loop of `getAddressPoolCIDRs` (lines 139-145), `CIDRs` being the slice
built so far. -/
def getAddressPoolCIDRsLoop (env : Collaborators) (poolName : String) :
    List String → List IPNet → Except ValidationError (List IPNet)
  | [], CIDRs => .ok CIDRs
  | cidr :: rest, CIDRs =>
    match env.parseCIDR cidr with
    | .error err => .error (.invalidCIDR cidr poolName err)
    | .ok nets => getAddressPoolCIDRsLoop env poolName rest (CIDRs ++ nets)

/-- Source `getAddressPoolCIDRs` (lines 137-147). -/
def getAddressPoolCIDRs (env : Collaborators) (addressPool : AddressPool) :
    Except ValidationError (List IPNet) :=
  getAddressPoolCIDRsLoop env addressPool.Name addressPool.Spec.Addresses []

/-- Source `lowestMask` (lines 261-273). -/
def lowestMask (cidrs : List IPNet) : Nat :=
  match cidrs with
  | [] => 0
  | c0 :: _ =>
    cidrs.foldl (fun lowest c => if lowest > c.ones then c.ones else lowest) c0.ones

/-- The first loop of `validateAggregationLength` (lines 232-238): fill the map
`cidrsPerAddresses`. -/
def cidrsPerAddressesLoop (env : Collaborators) (aggregationLength : Int) :
    List String → CIDRMap → Except ValidationError CIDRMap
  | [], m => .ok m
  | cidr :: rest, m =>
    match env.parseCIDR cidr with
    | .error err => .error (.aggregationParse cidr aggregationLength err)
    | .ok nets => cidrsPerAddressesLoop env aggregationLength rest (mapAssign m cidr nets)

/-- The second loop of `validateAggregationLength` (lines 240-256), over the
entries of the map in the order given. -/
def aggregationLoop (aggregationLength : Int) (isV6 : Bool) : CIDRMap → Verdict
  | [] => .ok ()
  | (addr, cidrs) :: rest =>
    match cidrs with
    | [] => aggregationLoop aggregationLength isV6 rest
    | c0 :: _ =>
      if isV6 && c0.isIPv4 then aggregationLoop aggregationLength isV6 rest
      else
        let lowest := lowestMask cidrs
        if aggregationLength < toInt32 lowest then
          .error (.aggregationTooBroad aggregationLength lowest addr)
        else aggregationLoop aggregationLength isV6 rest

/-- Source `validateAggregationLength` (lines 222-259); `aggregationLength` is
an `int32`. -/
def validateAggregationLength (env : Collaborators) (aggregationLength : Int) (isV6 : Bool)
    (poolAddresses : List String) : Verdict :=
  if isV6 ∧ aggregationLength > 128 then .error (.aggregationLengthIPv6 aggregationLength)
  else if ¬ isV6 ∧ aggregationLength > 32 then
    .error (.aggregationLengthIPv4 aggregationLength)
  else
    match cidrsPerAddressesLoop env aggregationLength poolAddresses [] with
    | .error err => .error err
    | .ok cidrsPerAddresses =>
      aggregationLoop aggregationLength isV6 (env.rangeOrder cidrsPerAddresses)

/-- Go `reflect.DeepEqual` on two `BgpAdvertisement` values: pointers are equal
when both are `nil` or point to equal values, slices when both are `nil` or both
are not and hold equal elements. -/
def DeepEqual (a b : BgpAdvertisement) : Bool := decide (a = b)

/-- The inner loop (index `j`) of `validateDuplicateAdvertisements`, for the
entry `a` at index `i` and the entries after it. -/
def duplicateAdvertisementsInner (a : BgpAdvertisement) : List BgpAdvertisement → Verdict
  | [] => .ok ()
  | b :: rest =>
    if DeepEqual a b then .error .duplicateAdvertisement
    else duplicateAdvertisementsInner a rest

/-- Source `validateDuplicateAdvertisements` (lines 200-209). -/
def validateDuplicateAdvertisements : List BgpAdvertisement → Verdict
  | [] => .ok ()
  | a :: rest =>
    match duplicateAdvertisementsInner a rest with
    | .error err => .error err
    | .ok _ => validateDuplicateAdvertisements rest

/-- The inner loop (index `j`) of `validateDuplicateCommunities`. -/
def duplicateCommunitiesInner (a : String) : List String → Verdict
  | [] => .ok ()
  | b :: rest =>
    if compare a b = .eq then .error .duplicateCommunities
    else duplicateCommunitiesInner a rest

/-- Source `validateDuplicateCommunities` (lines 211-220). -/
def validateDuplicateCommunities : List String → Verdict
  | [] => .ok ()
  | a :: rest =>
    match duplicateCommunitiesInner a rest with
    | .error err => .error err
    | .ok _ => validateDuplicateCommunities rest

/-- The body of the loop over the communities of one advertisement (lines
180-193). -/
def validateCommunity (community : String) : Verdict :=
  match splitOnChar ':' community.data with
  | [fs0, fs1] =>
    match ParseUint fs0 10 16 with
    | .error err => .error (.invalidCommunityFirst (String.mk fs0) err)
    | .ok _ =>
      match ParseUint fs1 10 16 with
      | .error err => .error (.invalidCommunitySecond (String.mk fs1) err)
      | .ok _ => .ok ()
  | _ => .error (.invalidCommunity community)

/-- The loop over the communities of one advertisement (lines 179-194). -/
def communitiesLoop : List String → Verdict
  | [] => .ok ()
  | community :: rest =>
    match validateCommunity community with
    | .error err => .error err
    | .ok _ => communitiesLoop rest

/-- The body of the loop over the advertisements (lines 160-194). -/
def validateAdvertisement (env : Collaborators) (poolAddresses : List String)
    (adv : BgpAdvertisement) : Verdict :=
  match validateDuplicateCommunities (sliceElems adv.Communities) with
  | .error err => .error err
  | .ok _ =>
    match (match adv.AggregationLength with
           | none => .ok ()
           | some l => validateAggregationLength env l false poolAddresses : Verdict) with
    | .error err => .error err
    | .ok _ =>
      match (match adv.AggregationLengthV6 with
             | none => .ok ()
             | some l => validateAggregationLength env l true poolAddresses : Verdict) with
      | .error err => .error err
      | .ok _ => communitiesLoop (sliceElems adv.Communities)

/-- The loop over the advertisements (lines 159-195). -/
def advertisementsLoop (env : Collaborators) (poolAddresses : List String) :
    List BgpAdvertisement → Verdict
  | [] => .ok ()
  | adv :: rest =>
    match validateAdvertisement env poolAddresses adv with
    | .error err => .error err
    | .ok _ => advertisementsLoop env poolAddresses rest

/-- Source `validateBGPAdvertisements` (lines 149-198). -/
def validateBGPAdvertisements (env : Collaborators) (bgpAdvertisements : List BgpAdvertisement)
    (poolAddresses : List String) : Verdict :=
  if bgpAdvertisements.length = 0 then .ok ()
  else
    match validateDuplicateAdvertisements bgpAdvertisements with
    | .error err => .error err
    | .ok _ => advertisementsLoop env poolAddresses bgpAdvertisements

/-- The innermost loop of `validateAddressPool` (lines 118-122): one existing
CIDR against the CIDRs of the candidate. -/
def overlapInner (env : Collaborators) (poolName existingName : String) (existingCIDR : IPNet) :
    List IPNet → Verdict
  | [] => .ok ()
  | cidr :: rest =>
    if env.cidrsOverlap existingCIDR cidr then
      .error (.overlappingCIDR cidr poolName existingCIDR existingName)
    else overlapInner env poolName existingName existingCIDR rest

/-- The loop over the CIDRs of one existing pool (lines 117-123). -/
def overlapOuter (env : Collaborators) (poolName existingName : String)
    (addressPoolCIDRS : List IPNet) : List IPNet → Verdict
  | [] => .ok ()
  | existingCIDR :: rest =>
    match overlapInner env poolName existingName existingCIDR addressPoolCIDRS with
    | .error err => .error err
    | .ok _ => overlapOuter env poolName existingName addressPoolCIDRS rest

/-- The loop over the existing pools (lines 100-124). -/
def existingPoolsLoop (env : Collaborators) (addressPool : AddressPool)
    (isNewAddressPool : Bool) (addressPoolCIDRS : List IPNet) : List AddressPool → Verdict
  | [] => .ok ()
  | existingAddressPool :: rest =>
    if existingAddressPool.Name = addressPool.Name then
      if isNewAddressPool then .error (.duplicatePool addressPool.Name)
      else existingPoolsLoop env addressPool isNewAddressPool addressPoolCIDRS rest
    else
      match getAddressPoolCIDRs env existingAddressPool with
      | .error err => .error (.failedToParseAddresses existingAddressPool.Name err)
      | .ok existingAddressPoolCIDRS =>
        match overlapOuter env addressPool.Name existingAddressPool.Name addressPoolCIDRS
            existingAddressPoolCIDRS with
        | .error err => .error err
        | .ok _ => existingPoolsLoop env addressPool isNewAddressPool addressPoolCIDRS rest

/-- The check of lines 90-98: advertisements are only valid for protocol `bgp`. -/
def checkAdvertisements (env : Collaborators) (addressPool : AddressPool) : Verdict :=
  if addressPool.Spec.BGPAdvertisements.length ≠ 0 then
    if addressPool.Spec.Protocol ≠ "bgp" then
      .error (.protocolMismatch addressPool.Spec.Protocol)
    else
      match validateBGPAdvertisements env addressPool.Spec.BGPAdvertisements
          addressPool.Spec.Addresses with
      | .error err => .error (.invalidBGPAdvertisement err)
      | .ok _ => .ok ()
  else .ok ()

/-- Source `validateAddressPool` (lines 83-126). -/
def validateAddressPool (env : Collaborators) (addressPool : AddressPool)
    (isNewAddressPool : Bool) (existingAddressPoolList : List AddressPool) : Verdict :=
  match getAddressPoolCIDRs env addressPool with
  | .error err => .error (.failedToParseAddresses addressPool.Name err)
  | .ok addressPoolCIDRS =>
    match checkAdvertisements env addressPool with
    | .error err => .error err
    | .ok _ =>
      existingPoolsLoop env addressPool isNewAddressPool addressPoolCIDRS
        existingAddressPoolList

/-! ## The entry points of the webhook

The package variable `addressPoolClient` is passed to the entry points as an
argument.  The log calls have no part in the result. -/

/-- The package variable `addressPoolClient`, seen through the one call the
webhook makes on it: the outcome of `addressPoolClient.List`, the items of the
list of existing pools or the error of the client. -/
abbrev AddressPoolClient := Except String (List AddressPool)

/-- Source `getExistingAddressPools` (lines 128-135). -/
def getExistingAddressPools (addressPoolClient : AddressPoolClient) :
    Except ValidationError (List AddressPool) :=
  match addressPoolClient with
  | .error err => .error (.failedToGetExisting err)
  | .ok existingAddressPoolList => .ok existingAddressPoolList

/-- Source `ValidateCreate` (lines 53-62). -/
def ValidateCreate (env : Collaborators) (addressPoolClient : AddressPoolClient)
    (addressPool : AddressPool) : Verdict :=
  match getExistingAddressPools addressPoolClient with
  | .error err => .error err
  | .ok existingAddressPoolList =>
    validateAddressPool env addressPool true existingAddressPoolList

/-- Source `ValidateUpdate` (lines 65-74); the argument `old` is not read. -/
def ValidateUpdate (env : Collaborators) (addressPoolClient : AddressPoolClient)
    (addressPool : AddressPool) (_old : AddressPool) : Verdict :=
  match getExistingAddressPools addressPoolClient with
  | .error err => .error err
  | .ok existingAddressPoolList =>
    validateAddressPool env addressPool false existingAddressPoolList

/-- Source `ValidateDelete` (lines 77-81): neither the client nor the pool is
read. -/
def ValidateDelete (_addressPoolClient : AddressPoolClient) (_addressPool : AddressPool) :
    Verdict :=
  .ok ()

/-! ## The collaborators as the specification describes them

Section 6 of the specification gives the contracts of the address-range resolver
(`parseCIDR`) and of the overlap tester (`cidrsOverlap`).  The definitions below
implement those contracts; the concrete examples of this file run on them. -/

/-- The value of a hexadecimal digit. -/
def hexValue (c : Char) : Option Nat :=
  if 48 ≤ c.toNat ∧ c.toNat ≤ 57 then some (c.toNat - 48)
  else if 97 ≤ c.toNat ∧ c.toNat ≤ 102 then some (c.toNat - 87)
  else if 65 ≤ c.toNat ∧ c.toNat ≤ 70 then some (c.toNat - 55)
  else none

/-- The number written by a list of digits in the given base (`none` when a
character is not a digit of that base), continuing from `acc`. -/
def readNumber (base : Nat) : List Char → Nat → Option Nat
  | [], acc => some acc
  | c :: cs, acc =>
    match hexValue c with
    | none => none
    | some d => if d < base then readNumber base cs (acc * base + d) else none

/-- A field of `1..maxLen` digits in the given base. -/
def readField (base maxLen : Nat) (cs : List Char) : Option Nat :=
  if cs = [] ∨ cs.length > maxLen then none else readNumber base cs 0

/-- Apply a partial function to every element; `none` when it fails on one. -/
def allSome {α β : Type} (f : α → Option β) : List α → Option (List β)
  | [] => some []
  | a :: rest =>
    match f a, allSome f rest with
    | some b, some bs => some (b :: bs)
    | _, _ => none

/-- The big-endian value of a list of digits in base `radix`. -/
def fromDigits (radix : Nat) (ds : List Nat) : Nat :=
  ds.foldl (fun acc d => acc * radix + d) 0

/-- The `len` bytes of `n`, most significant first. -/
def toBytes : Nat → Nat → List Byte
  | 0, _ => []
  | len + 1, n => Fin.ofNat (n / 256 ^ len) :: toBytes len n

/-- The number a list of bytes writes, most significant first. -/
def ofBytes (bs : List Byte) : Nat :=
  bs.foldl (fun acc b => acc * 256 + b.val) 0

/-- An IPv4 address in dotted-decimal form: its 32-bit value. -/
def parseIPv4 (cs : List Char) : Option Nat :=
  match allSome (readField 10 3) (splitOnChar '.' cs) with
  | some [a, b, c, d] =>
    if a < 256 ∧ b < 256 ∧ c < 256 ∧ d < 256 then some (fromDigits 256 [a, b, c, d])
    else none
  | _ => none

/-- Drop the empty piece that a leading `::` leaves in front of the pieces of an
IPv6 address; a single leading colon is an error. -/
def dropLeadingColon : List (List Char) → Option (List (List Char))
  | [] :: [] :: rest => some ([] :: rest)
  | [] :: _ => none
  | pieces => some pieces

/-- The groups of an IPv6 address, from its pieces between colons: an empty
piece stands for the run of zero groups that `::` abbreviates (at most one such
run, of at least one group). -/
def expandGroups (pieces : List (List Char)) : Option (List Nat) :=
  match pieces.span (fun p => p ≠ []) with
  | (left, []) =>
    match allSome (readField 16 4) left with
    | some gs => if gs.length = 8 then some gs else none
    | none => none
  | (left, _ :: right) =>
    match allSome (readField 16 4) left, allSome (readField 16 4) right with
    | some l, some r =>
      if l.length + r.length < 8 then
        some (l ++ List.replicate (8 - (l.length + r.length)) 0 ++ r)
      else none
    | _, _ => none

/-- An IPv6 address in colon-hexadecimal form, with `::` compression: its
128-bit value. -/
def parseIPv6 (cs : List Char) : Option Nat :=
  match dropLeadingColon (splitOnChar ':' cs) with
  | none => none
  | some pieces =>
    match dropLeadingColon pieces.reverse with
    | none => none
    | some rev =>
      match expandGroups rev.reverse with
      | some gs => some (fromDigits 65536 gs)
      | none => none

/-- An IP address: the number of bits of its family (32 or 128) and its value. -/
def parseIP (cs : List Char) : Option (Nat × Nat) :=
  match parseIPv4 cs with
  | some v => some (32, v)
  | none =>
    match parseIPv6 cs with
    | some v => some (128, v)
    | none => none

/-- The CIDR block of an address family with `bits` bits that starts at `addr`
and fixes the first `ones` bits. -/
def mkBlock (bits addr ones : Nat) : IPNet :=
  { IP := toBytes (bits / 8) addr
    Mask := toBytes (bits / 8) (2 ^ bits - 2 ^ (bits - ones)) }

/-- The largest `k ≤ n` such that the block of `2^k` addresses starting at `lo`
is aligned and ends at or before `hi`. -/
def largestBlock (lo hi : Nat) : Nat → Nat
  | 0 => 0
  | n + 1 => if lo % 2 ^ (n + 1) = 0 ∧ lo + 2 ^ (n + 1) - 1 ≤ hi then n + 1
             else largestBlock lo hi n

/-- The minimal list of CIDR blocks that covers the inclusive range `lo..hi`,
in increasing order: take the largest aligned block that fits, and go on after
it.  The first argument bounds the number of blocks (at most `2 * bits`). -/
def summarize (bits : Nat) : Nat → Nat → Nat → List IPNet
  | 0, _, _ => []
  | fuel + 1, lo, hi =>
    if hi < lo then []
    else
      let k := largestBlock lo hi bits
      mkBlock bits lo (bits - k) :: summarize bits fuel (lo + 2 ^ k) hi

/-- Modelled from the spec: the function `parseCIDR`, which the validators call
and another file of the package defines.  Section 6: the resolver accepts a
single IP address, CIDR notation, or an inclusive address range `A-B`, and
returns the minimal covering set of CIDR blocks, in order; it fails on
malformed input. -/
def specParseCIDR (spec : String) : Except String (List IPNet) :=
  match splitOnChar '-' spec.data with
  | [a, b] =>
    match parseIP a, parseIP b with
    | some (bitsA, lo), some (bitsB, hi) =>
      if bitsA = bitsB ∧ lo ≤ hi then .ok (summarize bitsA (2 * bitsA) lo hi)
      else .error "invalid IP range"
    | _, _ => .error "invalid IP range"
  | [single] =>
    match splitOnChar '/' single with
    | [a] =>
      match parseIP a with
      | some (bits, addr) => .ok [mkBlock bits addr bits]
      | none => .error "invalid IP address"
    | [a, len] =>
      match parseIP a, readField 10 3 len with
      | some (bits, addr), some ones =>
        if ones ≤ bits then .ok [mkBlock bits (addr - addr % 2 ^ (bits - ones)) ones]
        else .error "invalid CIDR"
      | _, _ => .error "invalid CIDR"
    | _ => .error "invalid CIDR"
  | _ => .error "invalid IP range"

/-- The first and the last address of a CIDR block, as numbers. -/
def blockBounds (c : IPNet) : Nat × Nat :=
  let size := 2 ^ (c.IP.length * 8 - c.ones)
  let lo := ofBytes c.IP - ofBytes c.IP % size
  (lo, lo + size - 1)

/-- Modelled from the spec: the function `cidrsOverlap`, which the validators
call and another file of the package defines.  Section 6: true iff the two
address ranges share at least one address; blocks of different address
families never overlap. -/
def specCidrsOverlap (a b : IPNet) : Bool :=
  decide (a.IP.length = b.IP.length
    ∧ (blockBounds a).1 ≤ (blockBounds b).2 ∧ (blockBounds b).1 ≤ (blockBounds a).2)

/-- The collaborators of the specification; a map is ranged over in the order
of its entries. -/
def specCollaborators : Collaborators where
  parseCIDR := specParseCIDR
  cidrsOverlap := specCidrsOverlap
  rangeOrder := fun m => m
  rangeOrder_perm := fun m => List.Perm.refl m

/-- The collaborators of the specification, with a map ranged over in the
reverse of the order of its entries. -/
def reversedCollaborators : Collaborators where
  parseCIDR := specParseCIDR
  cidrsOverlap := specCidrsOverlap
  rangeOrder := fun m => m.reverse
  rangeOrder_perm := fun m => List.reverse_perm m

/-! ## Vocabulary of the statements -/

/-- The CIDR blocks an address specification resolves to: the result of
`parseCIDR`, and no block when `parseCIDR` fails. -/
def resolvedCIDRs (env : Collaborators) (spec : String) : List IPNet :=
  match env.parseCIDR spec with
  | .ok nets => nets
  | .error _ => []

/-- Whether `parseCIDR` succeeds on the address specification. -/
def resolves (env : Collaborators) (spec : String) : Bool :=
  accepted (env.parseCIDR spec)

/-- The resolved CIDR blocks of a list of address specifications, concatenated
in the order of the list. -/
def allResolvedCIDRs (env : Collaborators) (specs : List String) : List IPNet :=
  (specs.map (resolvedCIDRs env)).flatten

/-- The family-skip rule of `validateAggregationLength` on the blocks of one
address specification: the IPv6 length is checked and the first block is IPv4. -/
def familySkip (isV6 : Bool) (nets : List IPNet) : Bool :=
  match nets with
  | [] => false
  | c0 :: _ => isV6 && c0.isIPv4

/-- The check `validateAggregationLength` makes on the blocks of one map entry
(lines 241-255): no block, or skipped by the family-skip rule, or the length is
not below `int32(lowestMask(cidrs))`. -/
def entryPasses (aggregationLength : Int) (isV6 : Bool) (cidrs : List IPNet) : Bool :=
  cidrs.isEmpty || familySkip isV6 cidrs
    || decide (toInt32 (lowestMask cidrs) ≤ aggregationLength)

/-- Whether the first block an address specification resolves to is IPv4. -/
def firstResolvedIsIPv4 (env : Collaborators) (spec : String) : Bool :=
  familySkip true (resolvedCIDRs env spec)

/-- An `AddressPool` object from the values of its fields. -/
def mkPool (name protocol : String) (addresses : List String)
    (advertisements : List BgpAdvertisement) : AddressPool :=
  { Name := name
    Spec := { Protocol := protocol, Addresses := addresses,
              BGPAdvertisements := advertisements } }

/-- The number a string of decimal digits writes. -/
def decimalValue (cs : List Char) : Nat :=
  cs.foldl (fun n c => 10 * n + (c.toNat - 48)) 0

/-- A section of a community as the specification describes it: a non-empty
string of decimal digits whose value fits in 16 bits. -/
def IsUint16Field (cs : List Char) : Prop :=
  cs ≠ [] ∧ (∀ c ∈ cs, 48 ≤ c.toNat ∧ c.toNat ≤ 57) ∧ decimalValue cs ≤ 65535

instance (cs : List Char) : Decidable (IsUint16Field cs) := by
  unfold IsUint16Field
  infer_instance

/-- The three errors that report a malformed community string. -/
def isMalformedCommunity : ValidationError → Bool
  | .invalidCommunity _ => true
  | .invalidCommunityFirst _ _ => true
  | .invalidCommunitySecond _ _ => true
  | _ => false

/-- The four errors of `validateAggregationLength`. -/
def isAggregationError : ValidationError → Bool
  | .aggregationLengthIPv6 _ => true
  | .aggregationLengthIPv4 _ => true
  | .aggregationParse _ _ _ => true
  | .aggregationTooBroad _ _ _ => true
  | _ => false

/-- The bound of the address family on an aggregation length: 128 bits for
IPv6, 32 bits for IPv4. -/
def withinFamilyBound (aggregationLength : Int) (isV6 : Bool) : Prop :=
  if isV6 = true then aggregationLength ≤ 128 else aggregationLength ≤ 32

instance (aggregationLength : Int) (isV6 : Bool) :
    Decidable (withinFamilyBound aggregationLength isV6) := by
  unfold withinFamilyBound
  infer_instance

/-! ## The bound on the loop of `simpleMaskLength` -/

theorem countLeadingOnes_shift (fuel : Nat) (v : Byte) (n : Nat) :
    (countLeadingOnes fuel v n).2 = (countLeadingOnes fuel v 0).2
      ∧ (countLeadingOnes fuel v n).1 = n + (countLeadingOnes fuel v 0).1 := by
  induction fuel generalizing v n with
  | zero => simp [countLeadingOnes]
  | succ k ih =>
    unfold countLeadingOnes
    split
    · rw [(ih (v * 2) (n + 1)).1, (ih (v * 2) (0 + 1)).1, (ih (v * 2) (n + 1)).2,
        (ih (v * 2) (0 + 1)).2]
      exact ⟨rfl, by omega⟩
    · simp

set_option maxRecDepth 100000 in
theorem countLeadingOnes_exit_byte :
    ∀ v : Byte, ((countLeadingOnes 8 v 0).2.val &&& 0x80) = 0 := by
  decide

theorem countLeadingOnes_more_fuel (fuel : Nat) (v : Byte) (n : Nat)
    (h : ((countLeadingOnes fuel v n).2.val &&& 0x80) = 0) :
    countLeadingOnes (fuel + 1) v n = countLeadingOnes fuel v n := by
  induction fuel generalizing v n with
  | zero =>
    simp only [countLeadingOnes] at h
    simp [countLeadingOnes, h]
  | succ k ih =>
    rw [countLeadingOnes]
    by_cases hv : v.val &&& 0x80 ≠ 0
    · rw [if_pos hv]
      rw [countLeadingOnes, if_pos hv] at h
      rw [ih (v * 2) (n + 1) h, countLeadingOnes, if_pos hv]
    · rw [if_neg hv, countLeadingOnes, if_neg hv]

/-- Eight iterations are enough for the inner loop of `simpleMaskLength`: it has
left the loop by then (the tested bit of the byte is clear), and a larger bound
gives the same result. -/
theorem countLeadingOnes_fuel (v : Byte) (n extra : Nat) :
    ((countLeadingOnes 8 v n).2.val &&& 0x80) = 0
      ∧ countLeadingOnes (8 + extra) v n = countLeadingOnes 8 v n := by
  have hexit : ((countLeadingOnes 8 v n).2.val &&& 0x80) = 0 := by
    rw [(countLeadingOnes_shift 8 v n).1]
    exact countLeadingOnes_exit_byte v
  refine ⟨hexit, ?_⟩
  induction extra with
  | zero => rfl
  | succ k ih =>
    have h : ((countLeadingOnes (8 + k) v n).2.val &&& 0x80) = 0 := by rw [ih]; exact hexit
    rw [← Nat.add_assoc, countLeadingOnes_more_fuel (8 + k) v n h, ih]

/-! ## Address resolution and the loop over the existing pools -/

theorem accepted_eq_false_iff {ε α : Type} (r : Except ε α) :
    accepted r = false ↔ ∃ err, r = .error err := by
  cases r <;> simp [accepted]

theorem accepted_eq_true_iff {ε α : Type} (r : Except ε α) :
    accepted r = true ↔ ∃ a, r = .ok a := by
  cases r <;> simp [accepted]

theorem verdict_accepted_iff (r : Verdict) : accepted r = true ↔ r = .ok () := by
  cases r <;> simp [accepted]

theorem resolvedCIDRs_of_ok {env : Collaborators} {spec : String} {nets : List IPNet}
    (h : env.parseCIDR spec = .ok nets) : resolvedCIDRs env spec = nets := by
  simp [resolvedCIDRs, h]

theorem parseCIDR_of_resolves {env : Collaborators} {spec : String}
    (h : resolves env spec = true) : env.parseCIDR spec = .ok (resolvedCIDRs env spec) := by
  unfold resolves at h
  unfold resolvedCIDRs
  cases hp : env.parseCIDR spec with
  | ok nets => rfl
  | error e => rw [hp] at h; simp [accepted] at h

theorem getAddressPoolCIDRsLoop_resolved (env : Collaborators) (poolName : String)
    (specs : List String) (acc : List IPNet)
    (h : ∀ s ∈ specs, resolves env s = true) :
    getAddressPoolCIDRsLoop env poolName specs acc
      = .ok (acc ++ allResolvedCIDRs env specs) := by
  induction specs generalizing acc with
  | nil => simp [getAddressPoolCIDRsLoop, allResolvedCIDRs]
  | cons s rest ih =>
    have hs := parseCIDR_of_resolves (h s (List.mem_cons_self _ _))
    have hrest : ∀ t ∈ rest, resolves env t = true :=
      fun t ht => h t (List.mem_cons_of_mem _ ht)
    rw [getAddressPoolCIDRsLoop, hs]
    simp only
    rw [ih _ hrest]
    simp [allResolvedCIDRs, List.append_assoc]

theorem getAddressPoolCIDRsLoop_first_failure (env : Collaborators) (poolName : String)
    (before : List String) (bad : String) (after : List String) (cause : String)
    (acc : List IPNet)
    (hbefore : ∀ s ∈ before, resolves env s = true)
    (hbad : env.parseCIDR bad = .error cause) :
    getAddressPoolCIDRsLoop env poolName (before ++ bad :: after) acc
      = .error (.invalidCIDR bad poolName cause) := by
  induction before generalizing acc with
  | nil => simp [getAddressPoolCIDRsLoop, hbad]
  | cons s rest ih =>
    have hs := parseCIDR_of_resolves (hbefore s (List.mem_cons_self _ _))
    have hrest : ∀ t ∈ rest, resolves env t = true :=
      fun t ht => hbefore t (List.mem_cons_of_mem _ ht)
    rw [List.cons_append, getAddressPoolCIDRsLoop, hs]
    simp only
    exact ih _ hrest

theorem getAddressPoolCIDRs_resolved (env : Collaborators) (addressPool : AddressPool)
    (h : ∀ s ∈ addressPool.Spec.Addresses, resolves env s = true) :
    getAddressPoolCIDRs env addressPool
      = .ok (allResolvedCIDRs env addressPool.Spec.Addresses) := by
  unfold getAddressPoolCIDRs
  rw [getAddressPoolCIDRsLoop_resolved env _ _ _ h]
  simp

/-- A list with an element on which `p` fails splits at the first such element. -/
theorem exists_first_failure {α : Type} (p : α → Bool) (l : List α)
    (h : ∃ a ∈ l, p a ≠ true) :
    ∃ before bad after, l = before ++ bad :: after
      ∧ (∀ t ∈ before, p t = true) ∧ p bad ≠ true := by
  induction l with
  | nil => simp at h
  | cons a rest ih =>
    by_cases ha : p a = true
    · obtain ⟨x, hx, hpx⟩ := h
      rcases List.mem_cons.mp hx with h1 | h1
      · exact absurd (h1 ▸ ha) hpx
      · obtain ⟨b, bad, af, heq, hb, hbad⟩ := ih ⟨x, h1, hpx⟩
        refine ⟨a :: b, bad, af, by simp [heq], ?_, hbad⟩
        intro t ht
        rcases List.mem_cons.mp ht with h2 | h2
        · exact h2 ▸ ha
        · exact hb t h2
    · exact ⟨[], a, rest, rfl, by simp, ha⟩

theorem parseCIDR_of_not_resolves {env : Collaborators} {spec : String}
    (h : resolves env spec ≠ true) : ∃ cause, env.parseCIDR spec = .error cause := by
  unfold resolves at h
  cases hp : env.parseCIDR spec with
  | ok nets => rw [hp] at h; simp [accepted] at h
  | error e => exact ⟨e, rfl⟩

/-- The candidate's addresses resolve exactly when `getAddressPoolCIDRs` succeeds. -/
theorem getAddressPoolCIDRs_accepted_iff (env : Collaborators) (addressPool : AddressPool) :
    accepted (getAddressPoolCIDRs env addressPool) = true
      ↔ ∀ s ∈ addressPool.Spec.Addresses, resolves env s = true := by
  constructor
  · intro hacc
    by_contra hne
    push_neg at hne
    obtain ⟨before, bad, after, heq, hb, hbad⟩ :=
      exists_first_failure (resolves env) addressPool.Spec.Addresses hne
    obtain ⟨cause, hcause⟩ := parseCIDR_of_not_resolves hbad
    unfold getAddressPoolCIDRs at hacc
    rw [heq, getAddressPoolCIDRsLoop_first_failure env _ before bad after cause [] hb hcause]
      at hacc
    simp [accepted] at hacc
  · intro h
    rw [getAddressPoolCIDRs_resolved env addressPool h]
    rfl

theorem overlapInner_cases (env : Collaborators) (poolName existingName : String)
    (existingCIDR : IPNet) (cidrs : List IPNet) :
    (overlapInner env poolName existingName existingCIDR cidrs = .ok ()
        ∧ ∀ c ∈ cidrs, env.cidrsOverlap existingCIDR c = false)
      ∨ ∃ c ∈ cidrs, env.cidrsOverlap existingCIDR c = true
          ∧ overlapInner env poolName existingName existingCIDR cidrs
              = .error (.overlappingCIDR c poolName existingCIDR existingName) := by
  induction cidrs with
  | nil => left; simp [overlapInner]
  | cons c rest ih =>
    by_cases hc : env.cidrsOverlap existingCIDR c = true
    · right
      exact ⟨c, List.mem_cons_self _ _, hc, by simp [overlapInner, hc]⟩
    · have hc2 : env.cidrsOverlap existingCIDR c = false := by simpa using hc
      rcases ih with ⟨hok, hall⟩ | ⟨d, hd, hov, herr⟩
      · left
        refine ⟨by simp [overlapInner, hc2, hok], ?_⟩
        intro x hx
        rcases List.mem_cons.mp hx with h | h
        · exact h ▸ hc2
        · exact hall x h
      · right
        exact ⟨d, List.mem_cons_of_mem _ hd, hov, by simp [overlapInner, hc2, herr]⟩

theorem overlapOuter_cases (env : Collaborators) (poolName existingName : String)
    (cidrs existingCIDRs : List IPNet) :
    (overlapOuter env poolName existingName cidrs existingCIDRs = .ok ()
        ∧ ∀ e ∈ existingCIDRs, ∀ c ∈ cidrs, env.cidrsOverlap e c = false)
      ∨ ∃ e ∈ existingCIDRs, ∃ c ∈ cidrs, env.cidrsOverlap e c = true
          ∧ overlapOuter env poolName existingName cidrs existingCIDRs
              = .error (.overlappingCIDR c poolName e existingName) := by
  induction existingCIDRs with
  | nil => left; simp [overlapOuter]
  | cons e rest ih =>
    rcases overlapInner_cases env poolName existingName e cidrs with
      ⟨hok, hall⟩ | ⟨c, hc, hov, herr⟩
    · rcases ih with ⟨hok2, hall2⟩ | ⟨e2, he2, c2, hc2, hov2, herr2⟩
      · left
        refine ⟨by simp [overlapOuter, hok, hok2], ?_⟩
        intro x hx
        rcases List.mem_cons.mp hx with h | h
        · exact h ▸ hall
        · exact hall2 x h
      · right
        exact ⟨e2, List.mem_cons_of_mem _ he2, c2, hc2, hov2,
          by simp [overlapOuter, hok, herr2]⟩
    · right
      exact ⟨e, List.mem_cons_self _ _, c, hc, hov, by simp [overlapOuter, herr]⟩

theorem checkAdvertisements_nil (env : Collaborators) (addressPool : AddressPool)
    (hadv : addressPool.Spec.BGPAdvertisements = []) :
    checkAdvertisements env addressPool = .ok () := by
  simp [checkAdvertisements, hadv]

theorem checkAdvertisements_mismatch (env : Collaborators) (addressPool : AddressPool)
    (hproto : addressPool.Spec.Protocol ≠ "bgp")
    (hadv : addressPool.Spec.BGPAdvertisements ≠ []) :
    checkAdvertisements env addressPool
      = .error (.protocolMismatch addressPool.Spec.Protocol) := by
  simp [checkAdvertisements, hadv, hproto]

theorem existingPoolsLoop_cases (env : Collaborators) (addressPool : AddressPool)
    (isNewAddressPool : Bool) (cidrs : List IPNet) (existing : List AddressPool)
    (hname : ∀ q ∈ existing, q.Name ≠ addressPool.Name)
    (hexres : ∀ q ∈ existing, ∀ s ∈ q.Spec.Addresses, resolves env s = true) :
    (existingPoolsLoop env addressPool isNewAddressPool cidrs existing = .ok ()
        ∧ ∀ q ∈ existing, ∀ e ∈ allResolvedCIDRs env q.Spec.Addresses, ∀ c ∈ cidrs,
            env.cidrsOverlap e c = false)
      ∨ ∃ q ∈ existing, ∃ e ∈ allResolvedCIDRs env q.Spec.Addresses, ∃ c ∈ cidrs,
          env.cidrsOverlap e c = true
          ∧ existingPoolsLoop env addressPool isNewAddressPool cidrs existing
              = .error (.overlappingCIDR c addressPool.Name e q.Name) := by
  induction existing with
  | nil => left; simp [existingPoolsLoop]
  | cons q rest ih =>
    have hq : q.Name ≠ addressPool.Name := hname q (List.mem_cons_self _ _)
    have hqres := getAddressPoolCIDRs_resolved env q (hexres q (List.mem_cons_self _ _))
    have ih2 := ih (fun x hx => hname x (List.mem_cons_of_mem _ hx))
      (fun x hx => hexres x (List.mem_cons_of_mem _ hx))
    rcases overlapOuter_cases env addressPool.Name q.Name cidrs
        (allResolvedCIDRs env q.Spec.Addresses) with ⟨hok, hall⟩ | ⟨e, he, c, hc, hov, herr⟩
    · rcases ih2 with ⟨hok2, hall2⟩ | ⟨q2, hq2, e2, he2, c2, hc2, hov2, herr2⟩
      · left
        refine ⟨by simp [existingPoolsLoop, hq, hqres, hok, hok2], ?_⟩
        intro x hx
        rcases List.mem_cons.mp hx with h | h
        · exact h ▸ hall
        · exact hall2 x h
      · right
        exact ⟨q2, List.mem_cons_of_mem _ hq2, e2, he2, c2, hc2, hov2,
          by simp [existingPoolsLoop, hq, hqres, hok, herr2]⟩
    · right
      exact ⟨q, List.mem_cons_self _ _, e, he, c, hc, hov,
        by simp [existingPoolsLoop, hq, hqres, herr]⟩

/-- Once the pools of `before` have been passed without error, the loop goes on
with the pools after them. -/
theorem existingPoolsLoop_append (env : Collaborators) (addressPool : AddressPool)
    (isNewAddressPool : Bool) (cidrs : List IPNet) (before rest : List AddressPool)
    (h : existingPoolsLoop env addressPool isNewAddressPool cidrs before = .ok ()) :
    existingPoolsLoop env addressPool isNewAddressPool cidrs (before ++ rest)
      = existingPoolsLoop env addressPool isNewAddressPool cidrs rest := by
  induction before with
  | nil => rfl
  | cons q more ih =>
    rw [List.cons_append, existingPoolsLoop]
    rw [existingPoolsLoop] at h
    by_cases hq : q.Name = addressPool.Name
    · simp only [hq, if_true] at h ⊢
      cases isNewAddressPool with
      | true => simp at h
      | false => simp only [Bool.false_eq_true, if_false] at h ⊢; exact ih h
    · simp only [hq, if_false] at h ⊢
      cases hp : getAddressPoolCIDRs env q with
      | error err => rw [hp] at h; simp at h
      | ok existingCIDRs =>
        rw [hp] at h
        simp only at h ⊢
        cases ho : overlapOuter env addressPool.Name q.Name cidrs existingCIDRs with
        | error err => rw [ho] at h; simp at h
        | ok u =>
          rw [ho] at h
          simp only at h ⊢
          exact ih h

/-- A new pool is never accepted against a list that holds a pool of its name. -/
theorem existingPoolsLoop_new_same_name (env : Collaborators) (addressPool : AddressPool)
    (cidrs : List IPNet) (existing : List AddressPool)
    (h : ∃ q ∈ existing, q.Name = addressPool.Name) :
    accepted (existingPoolsLoop env addressPool true cidrs existing) = false := by
  induction existing with
  | nil => simp at h
  | cons q rest ih =>
    rw [existingPoolsLoop]
    by_cases hq : q.Name = addressPool.Name
    · simp [hq, accepted]
    · have hrest : ∃ x ∈ rest, x.Name = addressPool.Name := by
        obtain ⟨x, hx, hxn⟩ := h
        rcases List.mem_cons.mp hx with h1 | h1
        · exact absurd (h1 ▸ hxn) hq
        · exact ⟨x, h1, hxn⟩
      simp only [hq, if_false]
      cases hp : getAddressPoolCIDRs env q with
      | error err => rfl
      | ok existingCIDRs =>
        simp only
        cases ho : overlapOuter env addressPool.Name q.Name cidrs existingCIDRs with
        | error err => rfl
        | ok u => exact ih hrest

/-! ## The aggregation length -/

theorem toInt32_of_lt (n : Nat) (h : n < 2 ^ 31) : toInt32 (n : Int) = n := by
  unfold toInt32
  have h1 : (0 : Int) ≤ (n : Int) + 2 ^ 31 := by positivity
  have h2 : (n : Int) + 2 ^ 31 < 2 ^ 32 := by
    have : (n : Int) < 2 ^ 31 := by exact_mod_cast h
    linarith
  rw [Int.emod_eq_of_lt h1 h2]
  ring

theorem foldl_lowest_le_init (l : List IPNet) (init : Nat) :
    l.foldl (fun lowest c => if lowest > c.ones then c.ones else lowest) init ≤ init := by
  induction l generalizing init with
  | nil => simp
  | cons c rest ih =>
    simp only [List.foldl_cons]
    split
    · rename_i h
      exact le_trans (ih _) (le_of_lt h)
    · exact ih _

theorem foldl_lowest_le_mem (l : List IPNet) (init : Nat) (c : IPNet) (hc : c ∈ l) :
    l.foldl (fun lowest c => if lowest > c.ones then c.ones else lowest) init ≤ c.ones := by
  induction l generalizing init with
  | nil => simp at hc
  | cons d rest ih =>
    simp only [List.foldl_cons]
    rcases List.mem_cons.mp hc with h | h
    · subst h
      split
      · exact foldl_lowest_le_init _ _
      · rename_i hgt
        exact le_trans (foldl_lowest_le_init _ _) (not_lt.mp hgt)
    · exact ih _ h

theorem foldl_lowest_attained (l : List IPNet) (init : Nat) :
    l.foldl (fun lowest c => if lowest > c.ones then c.ones else lowest) init = init
      ∨ ∃ c ∈ l,
        l.foldl (fun lowest c => if lowest > c.ones then c.ones else lowest) init
          = c.ones := by
  induction l generalizing init with
  | nil => left; rfl
  | cons d rest ih =>
    simp only [List.foldl_cons]
    split
    · rcases ih d.ones with h | ⟨c, hc, h⟩
      · exact Or.inr ⟨d, List.mem_cons_self _ _, h⟩
      · exact Or.inr ⟨c, List.mem_cons_of_mem _ hc, h⟩
    · rcases ih init with h | ⟨c, hc, h⟩
      · exact Or.inl h
      · exact Or.inr ⟨c, List.mem_cons_of_mem _ hc, h⟩

/-- On a non-empty list `lowestMask` is the least size of the network part
among the blocks. -/
theorem lowestMask_isLeast (cidrs : List IPNet) (hne : cidrs ≠ []) :
    IsLeast {n | ∃ c ∈ cidrs, c.ones = n} (lowestMask cidrs) := by
  cases cidrs with
  | nil => exact absurd rfl hne
  | cons c0 rest =>
    constructor
    · show ∃ c ∈ c0 :: rest, c.ones = lowestMask (c0 :: rest)
      rcases foldl_lowest_attained (c0 :: rest) c0.ones with h | ⟨c, hc, h⟩
      · exact ⟨c0, List.mem_cons_self _ _, h.symm⟩
      · exact ⟨c, hc, h.symm⟩
    · rintro n ⟨c, hc, rfl⟩
      exact foldl_lowest_le_mem (c0 :: rest) c0.ones c hc

theorem mem_mapAssign (m : CIDRMap) (k : String) (v : List IPNet)
    (hm : ∀ kv ∈ m, kv.1 = k → kv.2 = v) (x : String × List IPNet) :
    x ∈ mapAssign m k v ↔ x ∈ m ∨ x = (k, v) := by
  induction m with
  | nil => simp [mapAssign]
  | cons kv rest ih =>
    obtain ⟨k0, v0⟩ := kv
    have ih2 := ih (fun y hy => hm y (List.mem_cons_of_mem _ hy))
    by_cases hk : k0 = k
    · have hv : v0 = v := hm (k0, v0) (List.mem_cons_self _ _) hk
      subst hk hv
      simp only [mapAssign, if_true, List.mem_cons]
      tauto
    · simp only [mapAssign, hk, if_false, List.mem_cons, ih2]
      tauto

theorem cidrsPerAddressesLoop_resolved (env : Collaborators) (aggregationLength : Int)
    (specs : List String) (m : CIDRMap)
    (h : ∀ s ∈ specs, resolves env s = true)
    (hm : ∀ kv ∈ m, env.parseCIDR kv.1 = .ok kv.2) :
    ∃ m2, cidrsPerAddressesLoop env aggregationLength specs m = .ok m2
      ∧ ∀ x, x ∈ m2 ↔ x ∈ m ∨ (x.1 ∈ specs ∧ x.2 = resolvedCIDRs env x.1) := by
  induction specs generalizing m with
  | nil => exact ⟨m, rfl, by simp⟩
  | cons s rest ih =>
    have hs := parseCIDR_of_resolves (h s (List.mem_cons_self _ _))
    have hassign : ∀ x, x ∈ mapAssign m s (resolvedCIDRs env s)
        ↔ x ∈ m ∨ x = (s, resolvedCIDRs env s) := by
      apply mem_mapAssign
      intro kv hkv hk
      have h1 := hm kv hkv
      rw [hk, hs] at h1
      exact (Except.ok.inj h1).symm
    have hm2 : ∀ kv ∈ mapAssign m s (resolvedCIDRs env s), env.parseCIDR kv.1 = .ok kv.2 := by
      intro kv hkv
      rcases (hassign kv).mp hkv with h1 | h1
      · exact hm kv h1
      · rw [h1]; exact hs
    obtain ⟨m2, hm2ok, hm2mem⟩ :=
      ih (mapAssign m s (resolvedCIDRs env s))
        (fun t ht => h t (List.mem_cons_of_mem _ ht)) hm2
    refine ⟨m2, ?_, ?_⟩
    · rw [cidrsPerAddressesLoop, hs]
      exact hm2ok
    · intro x
      rw [hm2mem x, hassign x]
      constructor
      · rintro ((h1 | h1) | ⟨h1, h2⟩)
        · exact Or.inl h1
        · right
          subst h1
          exact ⟨List.mem_cons_self _ _, rfl⟩
        · exact Or.inr ⟨List.mem_cons_of_mem _ h1, h2⟩
      · rintro (h1 | ⟨h1, h2⟩)
        · exact Or.inl (Or.inl h1)
        · rcases List.mem_cons.mp h1 with h3 | h3
          · left; right
            exact Prod.ext h3 (by rw [h2, h3])
          · exact Or.inr ⟨h3, h2⟩

theorem cidrsPerAddressesLoop_first_failure (env : Collaborators) (aggregationLength : Int)
    (before : List String) (bad : String) (after : List String) (cause : String)
    (m : CIDRMap) (hbefore : ∀ s ∈ before, resolves env s = true)
    (hbad : env.parseCIDR bad = .error cause) :
    cidrsPerAddressesLoop env aggregationLength (before ++ bad :: after) m
      = .error (.aggregationParse bad aggregationLength cause) := by
  induction before generalizing m with
  | nil => simp [cidrsPerAddressesLoop, hbad]
  | cons s rest ih =>
    have hs := parseCIDR_of_resolves (hbefore s (List.mem_cons_self _ _))
    rw [List.cons_append, cidrsPerAddressesLoop, hs]
    exact ih _ (fun t ht => hbefore t (List.mem_cons_of_mem _ ht))

/-- The second loop either passes every entry, or stops at an entry that does
not pass, with the too-broad error for that entry. -/
theorem aggregationLoop_cases (aggregationLength : Int) (isV6 : Bool) (entries : CIDRMap) :
    (aggregationLoop aggregationLength isV6 entries = .ok ()
        ∧ ∀ kv ∈ entries, entryPasses aggregationLength isV6 kv.2 = true)
      ∨ ∃ kv ∈ entries, entryPasses aggregationLength isV6 kv.2 = false
          ∧ aggregationLoop aggregationLength isV6 entries
              = .error (.aggregationTooBroad aggregationLength (lowestMask kv.2) kv.1) := by
  induction entries with
  | nil => left; simp [aggregationLoop]
  | cons kv rest ih =>
    obtain ⟨addr, cidrs⟩ := kv
    have step : ∀ (hpass : entryPasses aggregationLength isV6 cidrs = true),
        aggregationLoop aggregationLength isV6 ((addr, cidrs) :: rest)
          = aggregationLoop aggregationLength isV6 rest := by
      intro hpass
      cases cidrs with
      | nil => simp [aggregationLoop]
      | cons c0 more =>
        by_cases hskip : (isV6 && c0.isIPv4) = true
        · simp [aggregationLoop, hskip]
        · simp only [entryPasses, familySkip, hskip, List.isEmpty_cons, Bool.false_or,
            decide_eq_true_eq] at hpass
          simp [aggregationLoop, hskip, not_lt.mpr hpass]
    by_cases hpass : entryPasses aggregationLength isV6 cidrs = true
    · rcases ih with ⟨hok, hall⟩ | ⟨kv2, hkv2, hfail, herr⟩
      · left
        refine ⟨by rw [step hpass]; exact hok, ?_⟩
        intro x hx
        rcases List.mem_cons.mp hx with h | h
        · rw [h]; exact hpass
        · exact hall x h
      · right
        exact ⟨kv2, List.mem_cons_of_mem _ hkv2, hfail, by rw [step hpass]; exact herr⟩
    · right
      have hfail : entryPasses aggregationLength isV6 cidrs = false := by simpa using hpass
      refine ⟨(addr, cidrs), List.mem_cons_self _ _, hfail, ?_⟩
      cases cidrs with
      | nil => simp [entryPasses] at hfail
      | cons c0 more =>
        simp only [entryPasses, familySkip, List.isEmpty_cons, Bool.false_or,
          Bool.or_eq_false_iff, decide_eq_false_iff_not, not_le] at hfail
        simp [aggregationLoop, hfail.1, hfail.2]

/-- The verdict of `validateAggregationLength`: the bound of the family holds,
every address specification resolves, and the blocks of every specification
pass the check of the second loop.  The order in which the map is ranged over
plays no part. -/
theorem validateAggregationLength_accepted_iff (env : Collaborators)
    (aggregationLength : Int) (isV6 : Bool) (poolAddresses : List String) :
    accepted (validateAggregationLength env aggregationLength isV6 poolAddresses) = true
      ↔ (if isV6 = true then aggregationLength ≤ 128 else aggregationLength ≤ 32)
        ∧ (∀ s ∈ poolAddresses, resolves env s = true)
        ∧ (∀ s ∈ poolAddresses,
            entryPasses aggregationLength isV6 (resolvedCIDRs env s) = true) := by
  unfold validateAggregationLength
  by_cases hb6 : isV6 = true ∧ aggregationLength > 128
  · rw [if_pos hb6]
    have : ¬ (if isV6 = true then aggregationLength ≤ 128 else aggregationLength ≤ 32) := by
      rw [if_pos hb6.1]; exact not_le.mpr hb6.2
    simp [accepted, this]
  rw [if_neg hb6]
  by_cases hb4 : ¬ isV6 = true ∧ aggregationLength > 32
  · rw [if_pos hb4]
    have : ¬ (if isV6 = true then aggregationLength ≤ 128 else aggregationLength ≤ 32) := by
      rw [if_neg hb4.1]; exact not_le.mpr hb4.2
    simp [accepted, this]
  rw [if_neg hb4]
  have hbound : (if isV6 = true then aggregationLength ≤ 128 else aggregationLength ≤ 32) := by
    by_cases h6 : isV6 = true
    · rw [if_pos h6]
      exact not_lt.mp (fun h => hb6 ⟨h6, h⟩)
    · rw [if_neg h6]
      exact not_lt.mp (fun h => hb4 ⟨h6, h⟩)
  by_cases hres : ∀ s ∈ poolAddresses, resolves env s = true
  · obtain ⟨m2, hok, hmem⟩ := cidrsPerAddressesLoop_resolved env aggregationLength
      poolAddresses [] hres (by simp)
    rw [hok]
    simp only
    rw [verdict_accepted_iff]
    have hperm := env.rangeOrder_perm m2
    rcases aggregationLoop_cases aggregationLength isV6 (env.rangeOrder m2) with
      ⟨hloop, hall⟩ | ⟨kv, hkv, hfail, herr⟩
    · refine iff_of_true hloop ⟨hbound, hres, ?_⟩
      intro s hs
      have h1 : (s, resolvedCIDRs env s) ∈ m2 := (hmem _).mpr (Or.inr ⟨hs, rfl⟩)
      exact hall _ (hperm.mem_iff.mpr h1)
    · refine iff_of_false (by rw [herr]; simp) ?_
      rintro ⟨_, _, hall⟩
      have h1 := (hmem kv).mp (hperm.mem_iff.mp hkv)
      simp only [List.not_mem_nil, false_or] at h1
      have h2 := hall kv.1 h1.1
      rw [← h1.2, hfail] at h2
      exact Bool.false_ne_true h2
  · have hne : ∃ s ∈ poolAddresses, resolves env s ≠ true := by
      push_neg at hres
      exact hres
    obtain ⟨before, bad, after, heq, hbefore, hbad⟩ :=
      exists_first_failure (resolves env) poolAddresses hne
    obtain ⟨cause, hcause⟩ := parseCIDR_of_not_resolves hbad
    rw [heq, cidrsPerAddressesLoop_first_failure env aggregationLength before bad after cause
      [] hbefore hcause, ← heq]
    simp [accepted, hres]

/-! ## Community strings -/

theorem splitOnChar_ne_nil (sep : Char) (cs : List Char) : splitOnChar sep cs ≠ [] := by
  cases cs with
  | nil => simp [splitOnChar]
  | cons c rest =>
    unfold splitOnChar
    split
    · simp
    · split <;> simp

theorem splitOnChar_of_not_mem (sep : Char) (cs : List Char) (h : sep ∉ cs) :
    splitOnChar sep cs = [cs] := by
  induction cs with
  | nil => rfl
  | cons c rest ih =>
    have hc : c ≠ sep := fun e => h (e ▸ List.mem_cons_self _ _)
    have hrest : sep ∉ rest := fun e => h (List.mem_cons_of_mem _ e)
    simp [splitOnChar, hc, ih hrest]

theorem splitOnChar_append (sep : Char) (a b : List Char) (h : sep ∉ a) :
    splitOnChar sep (a ++ sep :: b) = a :: splitOnChar sep b := by
  induction a with
  | nil => simp [splitOnChar]
  | cons c rest ih =>
    have hc : c ≠ sep := fun e => h (e ▸ List.mem_cons_self _ _)
    have hrest : sep ∉ rest := fun e => h (List.mem_cons_of_mem _ e)
    simp [splitOnChar, hc, ih hrest]

theorem splitOnChar_singleton (sep : Char) (cs b : List Char)
    (h : splitOnChar sep cs = [b]) : cs = b := by
  induction cs generalizing b with
  | nil => simpa [splitOnChar] using h
  | cons c rest ih =>
    unfold splitOnChar at h
    split at h
    · have := splitOnChar_ne_nil sep rest
      simp at h
      exact absurd h.2 this
    · split at h
      · rename_i hnil
        exact absurd hnil (splitOnChar_ne_nil sep rest)
      · rename_i p ps hp
        simp only [List.cons.injEq] at h
        obtain ⟨h1, h2⟩ := h
        subst h2
        rw [← h1, ih p hp]

theorem splitOnChar_pair (sep : Char) (cs a b : List Char)
    (h : splitOnChar sep cs = [a, b]) : cs = a ++ sep :: b := by
  induction cs generalizing a with
  | nil => simp [splitOnChar] at h
  | cons c rest ih =>
    unfold splitOnChar at h
    split at h
    · rename_i hc
      simp only [List.cons.injEq] at h
      obtain ⟨h1, h2⟩ := h
      rw [← h1, hc, splitOnChar_singleton sep rest b h2]
      rfl
    · split at h
      · rename_i hnil
        exact absurd hnil (splitOnChar_ne_nil sep rest)
      · rename_i p ps hp
        simp only [List.cons.injEq] at h
        obtain ⟨h1, h2⟩ := h
        subst h2
        rw [← h1, ih p hp]
        rfl

theorem digitValue_of_digit (c : Char) (h : 48 ≤ c.toNat ∧ c.toNat ≤ 57) :
    digitValue c = some (c.toNat - 48) := by
  simp [digitValue, h]

theorem digitValue_of_not_digit (c : Char) (h : ¬ (48 ≤ c.toNat ∧ c.toNat ≤ 57)) (d : Nat)
    (hd : digitValue c = some d) : 10 ≤ d := by
  unfold digitValue at hd
  rw [if_neg h] at hd
  split at hd
  · cases hd
    omega
  · cases hd

theorem foldl_decimal_ge (cs : List Char) (n : Nat) :
    n ≤ cs.foldl (fun n c => 10 * n + (c.toNat - 48)) n := by
  induction cs generalizing n with
  | nil => simp
  | cons c rest ih =>
    simp only [List.foldl_cons]
    exact le_trans (by omega) (ih _)

theorem parseUintLoop_decimal16 (cs : List Char) (n : Nat) (hn : n ≤ 65535) :
    accepted (parseUintLoop 10 ((2 ^ 64 - 1) / 10 + 1) (2 ^ 16 - 1) cs n) = true
      ↔ (∀ c ∈ cs, 48 ≤ c.toNat ∧ c.toNat ≤ 57)
        ∧ cs.foldl (fun n c => 10 * n + (c.toNat - 48)) n ≤ 65535 := by
  induction cs generalizing n with
  | nil => simp [parseUintLoop, accepted, hn]
  | cons c rest ih =>
    unfold parseUintLoop
    by_cases hc : 48 ≤ c.toNat ∧ c.toNat ≤ 57
    · rw [digitValue_of_digit c hc]
      have hd : ¬ (c.toNat - 48 ≥ 10) := by omega
      have hcut : ¬ (n ≥ (2 ^ 64 - 1) / 10 + 1) := by
        norm_num
        omega
      have h10 : (n * 10) % 2 ^ 64 = n * 10 := by
        apply Nat.mod_eq_of_lt
        norm_num
        omega
      have h1 : (n * 10 + (c.toNat - 48)) % 2 ^ 64 = n * 10 + (c.toNat - 48) := by
        apply Nat.mod_eq_of_lt
        norm_num
        omega
      simp only [hd, hcut, if_false, h10, h1]
      by_cases hbig : n * 10 + (c.toNat - 48) > 2 ^ 16 - 1
      · have hor : n * 10 + (c.toNat - 48) < n * 10 ∨ n * 10 + (c.toNat - 48) > 2 ^ 16 - 1 :=
          Or.inr hbig
        rw [if_pos hor]
        have hge := foldl_decimal_ge rest (10 * n + (c.toNat - 48))
        have : ¬ (List.foldl (fun n c => 10 * n + (c.toNat - 48)) n (c :: rest) ≤ 65535) := by
          simp only [List.foldl_cons]
          norm_num at hbig
          omega
        exact iff_of_false (by simp [accepted]) (fun h => this h.2)
      · have hor : ¬ (n * 10 + (c.toNat - 48) < n * 10
            ∨ n * 10 + (c.toNat - 48) > 2 ^ 16 - 1) := by
          rintro (h | h)
          · omega
          · exact hbig h
        rw [if_neg hor]
        have hle : n * 10 + (c.toNat - 48) ≤ 65535 := by
          norm_num at hbig
          exact hbig
        rw [ih _ hle]
        simp only [List.foldl_cons, List.mem_cons, forall_eq_or_imp, hc, true_and]
        rw [Nat.mul_comm n 10]
    · have hrhs : ¬ ((∀ x ∈ c :: rest, 48 ≤ x.toNat ∧ x.toNat ≤ 57)
          ∧ List.foldl (fun n c => 10 * n + (c.toNat - 48)) n (c :: rest) ≤ 65535) := by
        rintro ⟨h, _⟩
        exact hc (h c (List.mem_cons_self _ _))
      cases hdv : digitValue c with
      | none => exact iff_of_false (by simp [accepted]) hrhs
      | some d =>
        have := digitValue_of_not_digit c hc d hdv
        simp only
        rw [if_pos this]
        exact iff_of_false (by simp [accepted]) hrhs

/-- The call `strconv.ParseUint(s, 10, 16)` succeeds exactly on the non-empty
strings of decimal digits whose value is at most 65535. -/
theorem ParseUint_accepted_iff (cs : List Char) :
    accepted (ParseUint cs 10 16) = true ↔ IsUint16Field cs := by
  unfold ParseUint IsUint16Field decimalValue
  by_cases h : cs = []
  · simp [h, accepted]
  · rw [if_neg h, parseUintLoop_decimal16 cs 0 (by omega)]
    simp [h]

theorem validateCommunity_accepted_iff (community : String) :
    accepted (validateCommunity community) = true
      ↔ ∃ a b, community.data = a ++ ':' :: b ∧ IsUint16Field a ∧ IsUint16Field b := by
  constructor
  · intro h
    unfold validateCommunity at h
    split at h
    · rename_i fs0 fs1 hsplit
      have h0 : accepted (ParseUint fs0 10 16) = true := by
        cases hp : ParseUint fs0 10 16 with
        | error err => rw [hp] at h; simp [accepted] at h
        | ok v => rfl
      have h1 : accepted (ParseUint fs1 10 16) = true := by
        cases hp0 : ParseUint fs0 10 16 with
        | error err => rw [hp0] at h; simp [accepted] at h
        | ok v =>
          cases hp : ParseUint fs1 10 16 with
          | error err => rw [hp0, hp] at h; simp [accepted] at h
          | ok w => rfl
      exact ⟨fs0, fs1, splitOnChar_pair ':' _ _ _ hsplit,
        (ParseUint_accepted_iff fs0).mp h0, (ParseUint_accepted_iff fs1).mp h1⟩
    · simp [accepted] at h
  · rintro ⟨a, b, hab, ha, hb⟩
    have hcolon : ∀ cs : List Char, IsUint16Field cs → ':' ∉ cs := by
      intro cs hcs hmem
      have := hcs.2.1 ':' hmem
      have h58 : (':' : Char).toNat = 58 := by decide
      omega
    have hsplit : splitOnChar ':' community.data = [a, b] := by
      rw [hab, splitOnChar_append ':' a b (hcolon a ha),
        splitOnChar_of_not_mem ':' b (hcolon b hb)]
    obtain ⟨va, hva⟩ := (accepted_eq_true_iff _).mp ((ParseUint_accepted_iff a).mpr ha)
    obtain ⟨vb, hvb⟩ := (accepted_eq_true_iff _).mp ((ParseUint_accepted_iff b).mpr hb)
    unfold validateCommunity
    rw [hsplit]
    simp [hva, hvb, accepted]

theorem validateCommunity_error_malformed (community : String) (err : ValidationError)
    (h : validateCommunity community = .error err) : isMalformedCommunity err = true := by
  unfold validateCommunity at h
  split at h
  · split at h
    · cases h; rfl
    · split at h
      · cases h; rfl
      · cases h
  · cases h; rfl

/-! ## Duplicates -/

theorem string_compare_eq_iff (a b : String) : compare a b = Ordering.eq ↔ a = b :=
  compare_eq_iff_eq

theorem duplicateCommunitiesInner_cases (a : String) (l : List String) :
    (duplicateCommunitiesInner a l = .ok () ∧ a ∉ l)
      ∨ (duplicateCommunitiesInner a l = .error .duplicateCommunities ∧ a ∈ l) := by
  induction l with
  | nil => left; simp [duplicateCommunitiesInner]
  | cons b rest ih =>
    unfold duplicateCommunitiesInner
    by_cases hab : a = b
    · right
      rw [if_pos ((string_compare_eq_iff a b).mpr hab)]
      exact ⟨rfl, hab ▸ List.mem_cons_self _ _⟩
    · rw [if_neg (fun h => hab ((string_compare_eq_iff a b).mp h))]
      rcases ih with ⟨h1, h2⟩ | ⟨h1, h2⟩
      · left
        exact ⟨h1, by simp [hab, h2]⟩
      · right
        exact ⟨h1, List.mem_cons_of_mem _ h2⟩

theorem validateDuplicateCommunities_cases (l : List String) :
    (validateDuplicateCommunities l = .ok () ∧ l.Nodup)
      ∨ (validateDuplicateCommunities l = .error .duplicateCommunities ∧ ¬ l.Nodup) := by
  induction l with
  | nil => left; simp [validateDuplicateCommunities]
  | cons a rest ih =>
    unfold validateDuplicateCommunities
    rcases duplicateCommunitiesInner_cases a rest with ⟨h1, h2⟩ | ⟨h1, h2⟩
    · rw [h1]
      rcases ih with ⟨h3, h4⟩ | ⟨h3, h4⟩
      · left
        exact ⟨h3, List.nodup_cons.mpr ⟨h2, h4⟩⟩
      · right
        exact ⟨h3, fun h => h4 (List.nodup_cons.mp h).2⟩
    · rw [h1]
      right
      exact ⟨rfl, fun h => (List.nodup_cons.mp h).1 h2⟩

theorem duplicateAdvertisementsInner_cases (a : BgpAdvertisement) (l : List BgpAdvertisement) :
    (duplicateAdvertisementsInner a l = .ok () ∧ a ∉ l)
      ∨ (duplicateAdvertisementsInner a l = .error .duplicateAdvertisement ∧ a ∈ l) := by
  induction l with
  | nil => left; simp [duplicateAdvertisementsInner]
  | cons b rest ih =>
    unfold duplicateAdvertisementsInner
    by_cases hab : a = b
    · right
      rw [if_pos (by simp [DeepEqual, hab])]
      exact ⟨rfl, hab ▸ List.mem_cons_self _ _⟩
    · rw [if_neg (by simp [DeepEqual, hab])]
      rcases ih with ⟨h1, h2⟩ | ⟨h1, h2⟩
      · left
        exact ⟨h1, by simp [hab, h2]⟩
      · right
        exact ⟨h1, List.mem_cons_of_mem _ h2⟩

theorem validateDuplicateAdvertisements_cases (l : List BgpAdvertisement) :
    (validateDuplicateAdvertisements l = .ok () ∧ l.Nodup)
      ∨ (validateDuplicateAdvertisements l = .error .duplicateAdvertisement ∧ ¬ l.Nodup) := by
  induction l with
  | nil => left; simp [validateDuplicateAdvertisements]
  | cons a rest ih =>
    unfold validateDuplicateAdvertisements
    rcases duplicateAdvertisementsInner_cases a rest with ⟨h1, h2⟩ | ⟨h1, h2⟩
    · rw [h1]
      rcases ih with ⟨h3, h4⟩ | ⟨h3, h4⟩
      · left
        exact ⟨h3, List.nodup_cons.mpr ⟨h2, h4⟩⟩
      · right
        exact ⟨h3, fun h => h4 (List.nodup_cons.mp h).2⟩
    · rw [h1]
      right
      exact ⟨rfl, fun h => (List.nodup_cons.mp h).1 h2⟩

/-- A list has a repeated element exactly when two positions `i < j` hold equal
elements. -/
theorem not_nodup_iff_exists_lt {α : Type} (l : List α) :
    ¬ l.Nodup ↔ ∃ i j : Fin l.length, i < j ∧ l.get i = l.get j := by
  unfold List.Nodup
  rw [List.pairwise_iff_get]
  push_neg
  rfl

theorem not_nodup_iff_exists_ne {α : Type} (l : List α) :
    ¬ l.Nodup ↔ ∃ i j : Fin l.length, i ≠ j ∧ l.get i = l.get j := by
  rw [not_nodup_iff_exists_lt]
  constructor
  · rintro ⟨i, j, hij, h⟩
    exact ⟨i, j, ne_of_lt hij, h⟩
  · rintro ⟨i, j, hij, h⟩
    rcases lt_or_gt_of_ne hij with h1 | h1
    · exact ⟨i, j, h1, h⟩
    · exact ⟨j, i, h1, h.symm⟩

/-! ## The pool validator: overlap, names, protocol, addresses -/

/-- On an update the pools that bear the candidate's name are passed over. -/
theorem existingPoolsLoop_update_filter (env : Collaborators) (addressPool : AddressPool)
    (cidrs : List IPNet) (existing : List AddressPool) :
    existingPoolsLoop env addressPool false cidrs existing
      = existingPoolsLoop env addressPool false cidrs
          (existing.filter (fun q => decide (q.Name ≠ addressPool.Name))) := by
  induction existing with
  | nil => rfl
  | cons q rest ih =>
    by_cases hq : q.Name = addressPool.Name
    · rw [List.filter_cons_of_neg (by simp [hq]), existingPoolsLoop]
      simp only [hq, if_true, Bool.false_eq_true, if_false]
      exact ih
    · rw [List.filter_cons_of_pos (by simp [hq]), existingPoolsLoop, existingPoolsLoop]
      simp only [hq, if_false]
      rw [ih]

/-- C1. For a candidate whose address specifications all resolve and that has no
advertisement, against existing pools of other names whose specifications all
resolve (any `isNew`): the candidate is accepted iff no resolved CIDR of an
existing pool overlaps (`cidrsOverlap`) a resolved CIDR of the candidate; and
when some pair overlaps, the result is the overlapping-CIDR error for such a
pair, naming both blocks and both pools. -/
theorem validateAddressPool_accepts_iff_no_overlap (env : Collaborators)
    (addressPool : AddressPool) (isNewAddressPool : Bool) (existing : List AddressPool)
    (hres : ∀ s ∈ addressPool.Spec.Addresses, resolves env s = true)
    (hadv : addressPool.Spec.BGPAdvertisements = [])
    (hname : ∀ q ∈ existing, q.Name ≠ addressPool.Name)
    (hexres : ∀ q ∈ existing, ∀ s ∈ q.Spec.Addresses, resolves env s = true) :
    (validateAddressPool env addressPool isNewAddressPool existing = .ok ()
        ↔ ¬ ∃ q ∈ existing, ∃ e ∈ allResolvedCIDRs env q.Spec.Addresses,
              ∃ c ∈ allResolvedCIDRs env addressPool.Spec.Addresses,
                env.cidrsOverlap e c = true)
      ∧ ((∃ q ∈ existing, ∃ e ∈ allResolvedCIDRs env q.Spec.Addresses,
              ∃ c ∈ allResolvedCIDRs env addressPool.Spec.Addresses,
                env.cidrsOverlap e c = true)
          → ∃ q ∈ existing, ∃ e ∈ allResolvedCIDRs env q.Spec.Addresses,
              ∃ c ∈ allResolvedCIDRs env addressPool.Spec.Addresses,
                env.cidrsOverlap e c = true
                ∧ validateAddressPool env addressPool isNewAddressPool existing
                    = .error (.overlappingCIDR c addressPool.Name e q.Name)) := by
  have hval : validateAddressPool env addressPool isNewAddressPool existing
      = existingPoolsLoop env addressPool isNewAddressPool
          (allResolvedCIDRs env addressPool.Spec.Addresses) existing := by
    unfold validateAddressPool
    rw [getAddressPoolCIDRs_resolved env addressPool hres,
      checkAdvertisements_nil env addressPool hadv]
  rw [hval]
  rcases existingPoolsLoop_cases env addressPool isNewAddressPool
      (allResolvedCIDRs env addressPool.Spec.Addresses) existing hname hexres with
    ⟨hok, hall⟩ | ⟨q, hq, e, he, c, hc, hov, herr⟩
  · have hno : ¬ ∃ q ∈ existing, ∃ e ∈ allResolvedCIDRs env q.Spec.Addresses,
        ∃ c ∈ allResolvedCIDRs env addressPool.Spec.Addresses,
          env.cidrsOverlap e c = true := by
      rintro ⟨q, hq, e, he, c, hc, hov⟩
      rw [hall q hq e he c hc] at hov
      exact Bool.false_ne_true hov
    exact ⟨iff_of_true hok hno, fun h => absurd h hno⟩
  · refine ⟨iff_of_false (by rw [herr]; simp) ?_, fun _ => ⟨q, hq, e, he, c, hc, hov, herr⟩⟩
    exact fun h => h ⟨q, hq, e, he, c, hc, hov⟩

/-- C1, on the pools of the specification: `10.0.0.0/24` is rejected against
`10.0.0.128/25`, and accepted against `10.0.1.0/24`. -/
theorem validateAddressPool_overlap_example :
    validateAddressPool specCollaborators (mkPool "p" "layer2" ["10.0.0.0/24"] []) true
        [mkPool "q" "layer2" ["10.0.0.128/25"] []] ≠ .ok ()
      ∧ validateAddressPool specCollaborators (mkPool "p" "layer2" ["10.0.0.0/24"] []) true
          [mkPool "q" "layer2" ["10.0.0.128/25"] []]
        = .error (.overlappingCIDR
            { IP := [10, 0, 0, 0], Mask := [255, 255, 255, 0] } "p"
            { IP := [10, 0, 0, 128], Mask := [255, 255, 255, 128] } "q")
      ∧ validateAddressPool specCollaborators (mkPool "p" "layer2" ["10.0.0.0/24"] []) true
          [mkPool "q" "layer2" ["10.0.1.0/24"] []] = .ok () :=
  ⟨fun h =>
      ((validateAddressPool_accepts_iff_no_overlap specCollaborators
        (mkPool "p" "layer2" ["10.0.0.0/24"] []) true
        [mkPool "q" "layer2" ["10.0.0.128/25"] []]
        (by decide) rfl (by decide) (by decide)).1.mp h) (by decide),
    by decide,
    (validateAddressPool_accepts_iff_no_overlap specCollaborators
        (mkPool "p" "layer2" ["10.0.0.0/24"] []) true
        [mkPool "q" "layer2" ["10.0.1.0/24"] []]
        (by decide) rfl (by decide) (by decide)).1.mpr (by decide)⟩

/-- C6, as stated, fails: a `layer2` pool with an advertisement and an address
specification that does not resolve is rejected with the invalid-address error,
not with the protocol-mismatch error. -/
theorem protocol_mismatch_not_reported_first :
    (mkPool "p" "layer2" ["bad"] [⟨none, none, none⟩]).Spec.Protocol ≠ "bgp"
      ∧ (mkPool "p" "layer2" ["bad"] [⟨none, none, none⟩]).Spec.BGPAdvertisements ≠ []
      ∧ validateAddressPool specCollaborators
          (mkPool "p" "layer2" ["bad"] [⟨none, none, none⟩]) true []
        = .error (.failedToParseAddresses "p" (.invalidCIDR "bad" "p" "invalid IP address"))
      ∧ validateAddressPool specCollaborators
          (mkPool "p" "layer2" ["bad"] [⟨none, none, none⟩]) true []
        ≠ .error (.protocolMismatch "layer2") := by
  decide

/-- C6, amended. A candidate whose protocol is not `bgp` and whose advertisement
list is not empty is rejected, for every `isNew` and every list of existing
pools; when all its address specifications resolve, the error is the
protocol-mismatch error. -/
theorem validateAddressPool_protocol_mismatch (env : Collaborators)
    (addressPool : AddressPool) (isNewAddressPool : Bool) (existing : List AddressPool)
    (hproto : addressPool.Spec.Protocol ≠ "bgp")
    (hadv : addressPool.Spec.BGPAdvertisements ≠ []) :
    accepted (validateAddressPool env addressPool isNewAddressPool existing) = false
      ∧ ((∀ s ∈ addressPool.Spec.Addresses, resolves env s = true)
          → validateAddressPool env addressPool isNewAddressPool existing
              = .error (.protocolMismatch addressPool.Spec.Protocol)) := by
  have hcheck := checkAdvertisements_mismatch env addressPool hproto hadv
  constructor
  · unfold validateAddressPool
    cases getAddressPoolCIDRs env addressPool with
    | error err => rfl
    | ok cidrs => simp only [hcheck]; rfl
  · intro hres
    unfold validateAddressPool
    rw [getAddressPoolCIDRs_resolved env addressPool hres, hcheck]

/-- C6 amended, on an example: a `layer2` pool with one advertisement. -/
theorem validateAddressPool_protocol_mismatch_example :
    validateAddressPool specCollaborators
        (mkPool "p" "layer2" ["10.0.0.0/24"] [⟨some 24, none, none⟩]) false
        [mkPool "q" "bgp" ["10.0.0.0/24"] []]
      = .error (.protocolMismatch "layer2") :=
  (validateAddressPool_protocol_mismatch specCollaborators
    (mkPool "p" "layer2" ["10.0.0.0/24"] [⟨some 24, none, none⟩]) false
    [mkPool "q" "bgp" ["10.0.0.0/24"] []] (by decide) (by decide)).2 (by decide)

/-- C7, as stated, fails: a new pool whose name is taken is rejected, but not
always with the duplicate-name error.  A check that runs before the name is
compared reports its own error: here the protocol of the candidate, and the
addresses of a pool listed before the pool of the same name. -/
theorem duplicate_name_not_reported_first :
    validateAddressPool specCollaborators
        (mkPool "p" "layer2" ["10.0.0.0/24"] [⟨none, none, none⟩]) true
        [mkPool "p" "layer2" ["10.0.1.0/24"] []]
      = .error (.protocolMismatch "layer2")
    ∧ validateAddressPool specCollaborators (mkPool "p" "layer2" ["10.0.0.0/24"] []) true
        [mkPool "q" "layer2" ["bad"] [], mkPool "p" "layer2" ["10.0.1.0/24"] []]
      = .error (.failedToParseAddresses "q" (.invalidCIDR "bad" "q" "invalid IP address")) := by
  decide

/-- C7, amended. A new pool (`isNew = true`) is rejected against every list of
existing pools that holds a pool of its name, whatever the addresses; the error
is the duplicate-name error when the candidate is accepted against the pools
listed before the first pool of its name. -/
theorem validateAddressPool_new_same_name (env : Collaborators) (addressPool : AddressPool)
    (existing : List AddressPool) (hsame : ∃ q ∈ existing, q.Name = addressPool.Name) :
    accepted (validateAddressPool env addressPool true existing) = false
      ∧ ∀ before q after, existing = before ++ q :: after → q.Name = addressPool.Name
          → validateAddressPool env addressPool true before = .ok ()
          → validateAddressPool env addressPool true existing
              = .error (.duplicatePool addressPool.Name) := by
  constructor
  · unfold validateAddressPool
    cases getAddressPoolCIDRs env addressPool with
    | error err => rfl
    | ok cidrs =>
      simp only
      cases checkAdvertisements env addressPool with
      | error err => rfl
      | ok u => exact existingPoolsLoop_new_same_name env addressPool cidrs existing hsame
  · intro before q after heq hq hbefore
    unfold validateAddressPool at hbefore ⊢
    cases hp : getAddressPoolCIDRs env addressPool with
    | error err => rw [hp] at hbefore; simp at hbefore
    | ok cidrs =>
      rw [hp] at hbefore
      simp only at hbefore ⊢
      cases hc : checkAdvertisements env addressPool with
      | error err => rw [hc] at hbefore; simp at hbefore
      | ok u =>
        rw [hc] at hbefore
        simp only at hbefore ⊢
        rw [heq, existingPoolsLoop_append env addressPool true cidrs before _ hbefore,
          existingPoolsLoop]
        simp [hq]

/-- C7 amended, on an example: the name `p` is taken by a pool with disjoint
addresses. -/
theorem validateAddressPool_new_same_name_example :
    validateAddressPool specCollaborators (mkPool "p" "layer2" ["10.0.0.0/24"] []) true
        [mkPool "q" "layer2" ["10.0.2.0/24"] [], mkPool "p" "layer2" ["10.0.1.0/24"] []]
      = .error (.duplicatePool "p") :=
  (validateAddressPool_new_same_name specCollaborators
    (mkPool "p" "layer2" ["10.0.0.0/24"] []) 
    [mkPool "q" "layer2" ["10.0.2.0/24"] [], mkPool "p" "layer2" ["10.0.1.0/24"] []]
    (by decide)).2 [mkPool "q" "layer2" ["10.0.2.0/24"] []]
      (mkPool "p" "layer2" ["10.0.1.0/24"] []) [] rfl rfl (by decide)

/-- C8, as stated, fails: a pool is not always accepted against itself on
update.  A pool with an address specification that does not resolve, and a
`layer2` pool with an advertisement, are rejected. -/
theorem update_against_itself_rejected :
    validateAddressPool specCollaborators (mkPool "p" "layer2" ["10.0.0.0/33"] []) false
        [mkPool "p" "layer2" ["10.0.0.0/33"] []]
      = .error (.failedToParseAddresses "p" (.invalidCIDR "10.0.0.0/33" "p" "invalid CIDR"))
    ∧ validateAddressPool specCollaborators
        (mkPool "p" "layer2" ["10.0.0.0/24"] [⟨none, none, none⟩]) false
        [mkPool "p" "layer2" ["10.0.0.0/24"] [⟨none, none, none⟩]]
      = .error (.protocolMismatch "layer2") := by
  decide

/-- C8, amended. On an update (`isNew = false`) the existing pools that bear the
candidate's name are skipped: the result against any list is the result against
the list without them, and the result against the pool itself is the result
against no pool at all.  So a pool is accepted against itself exactly when its
address specifications resolve and its advertisements pass their checks. -/
theorem validateAddressPool_update_skips_same_name (env : Collaborators)
    (addressPool : AddressPool) :
    (∀ existing : List AddressPool,
        validateAddressPool env addressPool false existing
          = validateAddressPool env addressPool false
              (existing.filter (fun q => decide (q.Name ≠ addressPool.Name))))
      ∧ validateAddressPool env addressPool false [addressPool]
          = validateAddressPool env addressPool false []
      ∧ (validateAddressPool env addressPool false [addressPool] = .ok ()
          ↔ (∀ s ∈ addressPool.Spec.Addresses, resolves env s = true)
            ∧ checkAdvertisements env addressPool = .ok ()) := by
  have hfilter : ∀ existing : List AddressPool,
      validateAddressPool env addressPool false existing
        = validateAddressPool env addressPool false
            (existing.filter (fun q => decide (q.Name ≠ addressPool.Name))) := by
    intro existing
    unfold validateAddressPool
    cases getAddressPoolCIDRs env addressPool with
    | error err => rfl
    | ok cidrs =>
      simp only
      cases checkAdvertisements env addressPool with
      | error err => rfl
      | ok u => exact existingPoolsLoop_update_filter env addressPool cidrs existing
  have hself : validateAddressPool env addressPool false [addressPool]
      = validateAddressPool env addressPool false [] := by
    rw [hfilter [addressPool]]
    simp
  refine ⟨hfilter, hself, ?_⟩
  rw [hself, ← getAddressPoolCIDRs_accepted_iff]
  unfold validateAddressPool
  cases getAddressPoolCIDRs env addressPool with
  | error err => simp [accepted]
  | ok cidrs =>
    simp only [accepted, true_and]
    cases checkAdvertisements env addressPool with
    | error err => simp
    | ok u => simp [existingPoolsLoop]

/-- C9. When an address specification of the candidate does not resolve, the
candidate is rejected with the invalid-address error naming the pool and the
first such specification in list order, with the message of `parseCIDR`, for
every `isNew`, every advertisement list and every list of existing pools.
Otherwise `getAddressPoolCIDRs` returns the resolved blocks of the
specifications, concatenated in order. -/
theorem validateAddressPool_unresolved_address (env : Collaborators)
    (addressPool : AddressPool) :
    (∀ before bad after cause, addressPool.Spec.Addresses = before ++ bad :: after
        → (∀ s ∈ before, resolves env s = true) → env.parseCIDR bad = .error cause
        → ∀ (isNewAddressPool : Bool) (existing : List AddressPool),
            validateAddressPool env addressPool isNewAddressPool existing
              = .error (.failedToParseAddresses addressPool.Name
                  (.invalidCIDR bad addressPool.Name cause)))
      ∧ ((∃ s ∈ addressPool.Spec.Addresses, resolves env s ≠ true)
          → ∃ before bad after cause, addressPool.Spec.Addresses = before ++ bad :: after
              ∧ (∀ s ∈ before, resolves env s = true) ∧ env.parseCIDR bad = .error cause)
      ∧ ((∀ s ∈ addressPool.Spec.Addresses, resolves env s = true)
          → getAddressPoolCIDRs env addressPool
              = .ok (allResolvedCIDRs env addressPool.Spec.Addresses)) := by
  refine ⟨?_, ?_, getAddressPoolCIDRs_resolved env addressPool⟩
  · intro before bad after cause heq hbefore hbad isNewAddressPool existing
    unfold validateAddressPool getAddressPoolCIDRs
    rw [heq, getAddressPoolCIDRsLoop_first_failure env _ before bad after cause [] hbefore hbad]
  · intro h
    obtain ⟨before, bad, after, heq, hbefore, hbad⟩ :=
      exists_first_failure (resolves env) addressPool.Spec.Addresses h
    obtain ⟨cause, hcause⟩ := parseCIDR_of_not_resolves hbad
    exact ⟨before, bad, after, cause, heq, hbefore, hcause⟩

/-- C9, on an example: the second of three specifications is the first that
does not resolve; and the blocks of two specifications that resolve. -/
theorem validateAddressPool_unresolved_address_example :
    validateAddressPool specCollaborators
        (mkPool "p" "bgp" ["10.0.0.0/24", "bad", "10.0.0.0/99"] [⟨some 33, none, none⟩]) true
        [mkPool "p" "bgp" [] []]
      = .error (.failedToParseAddresses "p" (.invalidCIDR "bad" "p" "invalid IP address"))
    ∧ getAddressPoolCIDRs specCollaborators
        (mkPool "p" "bgp" ["10.0.0.6-10.0.0.9", "2001:db8::/32"] [])
      = .ok (allResolvedCIDRs specCollaborators ["10.0.0.6-10.0.0.9", "2001:db8::/32"]) :=
  ⟨(validateAddressPool_unresolved_address specCollaborators
      (mkPool "p" "bgp" ["10.0.0.0/24", "bad", "10.0.0.0/99"] [⟨some 33, none, none⟩])).1
      ["10.0.0.0/24"] "bad" ["10.0.0.0/99"] "invalid IP address" rfl (by decide) (by decide)
      true [mkPool "p" "bgp" [] []],
   (validateAddressPool_unresolved_address specCollaborators
      (mkPool "p" "bgp" ["10.0.0.6-10.0.0.9", "2001:db8::/32"] [])).2.2 (by decide)⟩

/-! ## The advertisement validators: aggregation length, communities, duplicates -/

/-- The check of one map entry, in the words of the specification: when there
are blocks and the family-skip rule does not apply, the length is at least the
least size of the network part among the blocks. -/
theorem entryPasses_iff (aggregationLength : Int) (isV6 : Bool) (cidrs : List IPNet)
    (hsize : ∀ c ∈ cidrs, c.ones ≤ 128) :
    entryPasses aggregationLength isV6 cidrs = true
      ↔ (cidrs ≠ [] → familySkip isV6 cidrs = false
          → ∃ m : Nat, IsLeast {n | ∃ c ∈ cidrs, c.ones = n} m
              ∧ (m : Int) ≤ aggregationLength) := by
  by_cases hne : cidrs = []
  · simp [entryPasses, hne]
  have hleast := lowestMask_isLeast cidrs hne
  have hempty : cidrs.isEmpty = false := by
    cases cidrs with
    | nil => exact absurd rfl hne
    | cons c rest => rfl
  by_cases hskip : familySkip isV6 cidrs = true
  · simp [entryPasses, hskip]
  have hskip2 : familySkip isV6 cidrs = false := by simpa using hskip
  obtain ⟨c, hc, hcones⟩ := hleast.1
  have hlt : lowestMask cidrs < 2 ^ 31 :=
    lt_of_le_of_lt (hcones ▸ hsize c hc) (by norm_num)
  simp only [entryPasses, hempty, hskip2, Bool.false_or, decide_eq_true_eq,
    toInt32_of_lt _ hlt]
  constructor
  · intro h _ _
    exact ⟨lowestMask cidrs, hleast, h⟩
  · intro h
    obtain ⟨m, hm, hle⟩ := h hne trivial
    rw [hleast.unique hm]
    exact hle

/-- C2. `validateAggregationLength(length, isV6, poolAddresses)` succeeds iff
(1) the length is at most 128 for IPv6 and at most 32 for IPv4, (2) every
address specification resolves, and (3) for every specification that resolves
to at least one block and is not skipped by the family-skip rule, the length is
at least the minimum, over the blocks of that specification, of the size of the
network part.  The resolved blocks are IP blocks: the network part has at most
128 bits (so that the conversion `int32(lowest)` of the source keeps it). -/
theorem validateAggregationLength_accepts_iff (env : Collaborators)
    (aggregationLength : Int) (isV6 : Bool) (poolAddresses : List String)
    (hsize : ∀ s ∈ poolAddresses, ∀ c ∈ resolvedCIDRs env s, c.ones ≤ 128) :
    validateAggregationLength env aggregationLength isV6 poolAddresses = .ok ()
      ↔ (if isV6 = true then aggregationLength ≤ 128 else aggregationLength ≤ 32)
        ∧ (∀ s ∈ poolAddresses, resolves env s = true)
        ∧ (∀ s ∈ poolAddresses, resolvedCIDRs env s ≠ []
            → familySkip isV6 (resolvedCIDRs env s) = false
            → ∃ m : Nat, IsLeast {n | ∃ c ∈ resolvedCIDRs env s, c.ones = n} m
                ∧ (m : Int) ≤ aggregationLength) := by
  rw [← verdict_accepted_iff, validateAggregationLength_accepted_iff]
  constructor
  · rintro ⟨h1, h2, h3⟩
    exact ⟨h1, h2, fun s hs =>
      (entryPasses_iff aggregationLength isV6 _ (hsize s hs)).mp (h3 s hs)⟩
  · rintro ⟨h1, h2, h3⟩
    exact ⟨h1, h2, fun s hs =>
      (entryPasses_iff aggregationLength isV6 _ (hsize s hs)).mpr (h3 s hs)⟩

/-- C2, on the example of the specification: with the address `10.0.0.0/24` and
the IPv4 family, 24 is accepted, 16 is too broad and 33 is out of range. -/
theorem validateAggregationLength_example :
    ((if false = true then (24 : Int) ≤ 128 else (24 : Int) ≤ 32)
        ∧ (∀ s ∈ ["10.0.0.0/24"], resolves specCollaborators s = true)
        ∧ (∀ s ∈ ["10.0.0.0/24"], resolvedCIDRs specCollaborators s ≠ []
            → familySkip false (resolvedCIDRs specCollaborators s) = false
            → ∃ m : Nat, IsLeast {n | ∃ c ∈ resolvedCIDRs specCollaborators s, c.ones = n} m
                ∧ (m : Int) ≤ 24))
      ∧ validateAggregationLength specCollaborators 24 false ["10.0.0.0/24"] = .ok ()
      ∧ validateAggregationLength specCollaborators 16 false ["10.0.0.0/24"]
          = .error (.aggregationTooBroad 16 24 "10.0.0.0/24")
      ∧ validateAggregationLength specCollaborators 33 false ["10.0.0.0/24"]
          = .error (.aggregationLengthIPv4 33) :=
  ⟨(validateAggregationLength_accepts_iff specCollaborators 24 false ["10.0.0.0/24"]
      (by decide)).mp (by decide), by decide, by decide, by decide⟩

/-- C10. For the IPv6 family the verdict of `validateAggregationLength` is its
verdict on the list without the address specifications whose first resolved
block is IPv4. -/
theorem validateAggregationLength_v6_ignores_v4 (env : Collaborators)
    (aggregationLength : Int) (poolAddresses : List String) :
    accepted (validateAggregationLength env aggregationLength true poolAddresses)
      = accepted (validateAggregationLength env aggregationLength true
          (poolAddresses.filter (fun s => !firstResolvedIsIPv4 env s))) := by
  rw [Bool.eq_iff_iff, validateAggregationLength_accepted_iff,
    validateAggregationLength_accepted_iff]
  have hremoved : ∀ s, firstResolvedIsIPv4 env s = true
      → resolves env s = true ∧ entryPasses aggregationLength true (resolvedCIDRs env s) = true := by
    intro s hs
    unfold firstResolvedIsIPv4 at hs
    refine ⟨?_, by simp [entryPasses, hs]⟩
    unfold resolves
    unfold resolvedCIDRs at hs
    cases hp : env.parseCIDR s with
    | ok nets => rfl
    | error err => rw [hp] at hs; simp [familySkip] at hs
  constructor
  · rintro ⟨h1, h2, h3⟩
    exact ⟨h1, fun s hs => h2 s (List.mem_of_mem_filter hs),
      fun s hs => h3 s (List.mem_of_mem_filter hs)⟩
  · rintro ⟨h1, h2, h3⟩
    refine ⟨h1, ?_, ?_⟩
    · intro s hs
      by_cases hv4 : firstResolvedIsIPv4 env s = true
      · exact (hremoved s hv4).1
      · exact h2 s (List.mem_filter.mpr ⟨hs, by simpa using hv4⟩)
    · intro s hs
      by_cases hv4 : firstResolvedIsIPv4 env s = true
      · exact (hremoved s hv4).2
      · exact h3 s (List.mem_filter.mpr ⟨hs, by simpa using hv4⟩)

/-- C10, on the example of the specification: with the addresses `10.0.0.0/24`
and `2001:db8::/32`, the IPv6 length is checked against `2001:db8::/32` alone:
32 and 128 are accepted, 31 and 129 are not. -/
theorem validateAggregationLength_v6_example :
    ["10.0.0.0/24", "2001:db8::/32"].filter
        (fun s => !firstResolvedIsIPv4 specCollaborators s) = ["2001:db8::/32"]
      ∧ accepted (validateAggregationLength specCollaborators 32 true
          ["10.0.0.0/24", "2001:db8::/32"])
        = accepted (validateAggregationLength specCollaborators 32 true ["2001:db8::/32"])
      ∧ validateAggregationLength specCollaborators 32 true
          ["10.0.0.0/24", "2001:db8::/32"] = .ok ()
      ∧ validateAggregationLength specCollaborators 128 true
          ["10.0.0.0/24", "2001:db8::/32"] = .ok ()
      ∧ validateAggregationLength specCollaborators 31 true
          ["10.0.0.0/24", "2001:db8::/32"]
        = .error (.aggregationTooBroad 31 32 "2001:db8::/32")
      ∧ validateAggregationLength specCollaborators 129 true
          ["10.0.0.0/24", "2001:db8::/32"] = .error (.aggregationLengthIPv6 129) :=
  ⟨by decide,
   validateAggregationLength_v6_ignores_v4 specCollaborators 32
     ["10.0.0.0/24", "2001:db8::/32"],
   by decide, by decide, by decide, by decide⟩

theorem validateBGPAdvertisements_single_community_eq (env : Collaborators)
    (community : String) (poolAddresses : List String) :
    validateBGPAdvertisements env [⟨none, none, some [community]⟩] poolAddresses
      = validateCommunity community := by
  simp only [validateBGPAdvertisements, List.length_singleton, one_ne_zero, if_false,
    validateDuplicateAdvertisements, duplicateAdvertisementsInner, advertisementsLoop,
    validateAdvertisement, sliceElems, validateDuplicateCommunities,
    duplicateCommunitiesInner, communitiesLoop]
  cases validateCommunity community <;> rfl

/-- C3. For one advertisement with no aggregation length and the single
community `c`: `validateBGPAdvertisements` succeeds iff `c` is two sections
joined by one colon, each a non-empty string of decimal digits whose value is in
`0..65535`; otherwise the error is one of the malformed-community errors. -/
theorem validateBGPAdvertisements_single_community (env : Collaborators)
    (community : String) (poolAddresses : List String) :
    (validateBGPAdvertisements env [⟨none, none, some [community]⟩] poolAddresses = .ok ()
        ↔ ∃ a b, community.data = a ++ ':' :: b ∧ IsUint16Field a ∧ IsUint16Field b)
      ∧ ∀ err,
          validateBGPAdvertisements env [⟨none, none, some [community]⟩] poolAddresses
              = .error err
            → isMalformedCommunity err = true := by
  rw [validateBGPAdvertisements_single_community_eq, ← verdict_accepted_iff,
    validateCommunity_accepted_iff]
  exact ⟨Iff.rfl, validateCommunity_error_malformed community⟩

/-- C3, on the examples of the specification: `65000:100` is accepted;
`abc:100`, `65000:100:1` and `65536:1` are rejected as malformed. -/
theorem validateBGPAdvertisements_community_examples :
    validateBGPAdvertisements specCollaborators [⟨none, none, some ["65000:100"]⟩] [] = .ok ()
      ∧ validateBGPAdvertisements specCollaborators [⟨none, none, some ["abc:100"]⟩] []
          = .error (.invalidCommunityFirst "abc" .errSyntax)
      ∧ validateBGPAdvertisements specCollaborators [⟨none, none, some ["65000:100:1"]⟩] []
          = .error (.invalidCommunity "65000:100:1")
      ∧ validateBGPAdvertisements specCollaborators [⟨none, none, some ["65536:1"]⟩] []
          = .error (.invalidCommunityFirst "65536" .errRange)
      ∧ validateBGPAdvertisements specCollaborators [⟨none, none, some ["1:65536"]⟩] []
          = .error (.invalidCommunitySecond "65536" .errRange) :=
  ⟨(validateBGPAdvertisements_single_community specCollaborators "65000:100" []).1.mpr
      ⟨"65000".data, "100".data, by decide, by decide, by decide⟩,
    by decide, by decide, by decide, by decide⟩

/-- C4. `validateDuplicateAdvertisements` fails, with the duplicate-advertisement
error, iff two positions `i < j` of the list hold equal advertisements (equal
for `reflect.DeepEqual`); a list with two equal entries is therefore rejected by
`validateBGPAdvertisements` with that error, whatever else it holds and whatever
the pool addresses; and the result is the same for every reordering of the
list. -/
theorem validateDuplicateAdvertisements_fails_iff (bgpAdvertisements : List BgpAdvertisement) :
    (validateDuplicateAdvertisements bgpAdvertisements ≠ .ok ()
        ↔ ∃ i j : Fin bgpAdvertisements.length,
            i < j ∧ DeepEqual (bgpAdvertisements.get i) (bgpAdvertisements.get j) = true)
      ∧ (validateDuplicateAdvertisements bgpAdvertisements ≠ .ok ()
          → validateDuplicateAdvertisements bgpAdvertisements = .error .duplicateAdvertisement)
      ∧ ((∃ i j : Fin bgpAdvertisements.length,
            i < j ∧ DeepEqual (bgpAdvertisements.get i) (bgpAdvertisements.get j) = true)
          → ∀ (env : Collaborators) (poolAddresses : List String),
              validateBGPAdvertisements env bgpAdvertisements poolAddresses
                = .error .duplicateAdvertisement)
      ∧ (∀ reordered : List BgpAdvertisement, List.Perm reordered bgpAdvertisements
          → validateDuplicateAdvertisements reordered
              = validateDuplicateAdvertisements bgpAdvertisements) := by
  have hdeep : (∃ i j : Fin bgpAdvertisements.length,
        i < j ∧ DeepEqual (bgpAdvertisements.get i) (bgpAdvertisements.get j) = true)
      ↔ ¬ bgpAdvertisements.Nodup := by
    rw [not_nodup_iff_exists_lt]
    simp [DeepEqual]
  rw [hdeep]
  refine ⟨?_, ?_, ?_, ?_⟩
  · rcases validateDuplicateAdvertisements_cases bgpAdvertisements with ⟨h1, h2⟩ | ⟨h1, h2⟩
    · exact iff_of_false (fun h => h h1) (fun h => h h2)
    · exact iff_of_true (by rw [h1]; simp) h2
  · intro h
    rcases validateDuplicateAdvertisements_cases bgpAdvertisements with ⟨h1, _⟩ | ⟨h1, _⟩
    · exact absurd h1 h
    · exact h1
  · intro hdup env poolAddresses
    rcases validateDuplicateAdvertisements_cases bgpAdvertisements with ⟨_, h2⟩ | ⟨h1, _⟩
    · exact absurd h2 hdup
    · have hlen : bgpAdvertisements.length ≠ 0 := by
        intro h0
        exact hdup (by rw [List.length_eq_zero.mp h0]; exact List.nodup_nil)
      unfold validateBGPAdvertisements
      rw [if_neg hlen, h1]
  · intro reordered hperm
    rcases validateDuplicateAdvertisements_cases bgpAdvertisements with ⟨h1, h2⟩ | ⟨h1, h2⟩
    · rcases validateDuplicateAdvertisements_cases reordered with ⟨h3, _⟩ | ⟨_, h4⟩
      · rw [h1, h3]
      · exact absurd (hperm.nodup_iff.mpr h2) h4
    · rcases validateDuplicateAdvertisements_cases reordered with ⟨_, h4⟩ | ⟨h3, _⟩
      · exact absurd (hperm.nodup_iff.mp h4) h2
      · rw [h1, h3]

/-- C4, on the example of the specification: two entries
`{aggregationLength: 24, communities: ["65000:100"]}`, with a third between
them. -/
theorem validateBGPAdvertisements_duplicate_example :
    validateBGPAdvertisements specCollaborators
        [⟨some 24, none, some ["65000:100"]⟩, ⟨none, some 64, none⟩,
         ⟨some 24, none, some ["65000:100"]⟩] ["10.0.0.0/24"]
      = .error .duplicateAdvertisement :=
  (validateDuplicateAdvertisements_fails_iff
      [⟨some 24, none, some ["65000:100"]⟩, ⟨none, some 64, none⟩,
       ⟨some 24, none, some ["65000:100"]⟩]).2.2.1
    ⟨⟨0, by decide⟩, ⟨2, by decide⟩, by decide, by decide⟩
    specCollaborators ["10.0.0.0/24"]

/-- C5. `validateDuplicateCommunities` fails, with the duplicate-communities
error, iff the list holds the same string at two distinct positions; it
succeeds exactly on the lists without duplicates, the empty list among them. -/
theorem validateDuplicateCommunities_fails_iff (communities : List String) :
    (validateDuplicateCommunities communities ≠ .ok ()
        ↔ ∃ i j : Fin communities.length, i ≠ j ∧ communities.get i = communities.get j)
      ∧ (validateDuplicateCommunities communities ≠ .ok ()
          → validateDuplicateCommunities communities = .error .duplicateCommunities)
      ∧ (validateDuplicateCommunities communities = .ok () ↔ communities.Nodup)
      ∧ validateDuplicateCommunities [] = .ok () := by
  rw [← not_nodup_iff_exists_ne]
  rcases validateDuplicateCommunities_cases communities with ⟨h1, h2⟩ | ⟨h1, h2⟩
  · exact ⟨iff_of_false (fun h => h h1) (fun h => h h2), fun h => absurd h1 h,
      iff_of_true h1 h2, rfl⟩
  · exact ⟨iff_of_true (by rw [h1]; simp) h2, fun _ => h1,
      iff_of_false (by rw [h1]; simp) h2, rfl⟩

/-- C5, on the example of the specification: the community `65000:100` twice. -/
theorem validateDuplicateCommunities_example :
    validateDuplicateCommunities ["65000:100", "1:1", "65000:100"]
        = .error .duplicateCommunities
      ∧ validateDuplicateCommunities ["65000:100", "1:1", "65000:101"] = .ok () :=
  ⟨(validateDuplicateCommunities_fails_iff ["65000:100", "1:1", "65000:100"]).2.1
      (by decide),
   (validateDuplicateCommunities_fails_iff ["65000:100", "1:1", "65000:101"]).2.2.1.mpr
      (by decide)⟩

/-! ## Further facts on the aggregation length -/

theorem cidrsPerAddressesLoop_error_kind (env : Collaborators) (aggregationLength : Int)
    (specs : List String) (m : CIDRMap) (err : ValidationError)
    (h : cidrsPerAddressesLoop env aggregationLength specs m = .error err) :
    isAggregationError err = true := by
  induction specs generalizing m with
  | nil => simp [cidrsPerAddressesLoop] at h
  | cons s rest ih =>
    rw [cidrsPerAddressesLoop] at h
    cases hp : env.parseCIDR s with
    | error cause =>
      rw [hp] at h
      cases h
      rfl
    | ok nets =>
      rw [hp] at h
      exact ih _ h

/-- Every error of `validateAggregationLength` is one of its four errors. -/
theorem validateAggregationLength_error_kind (env : Collaborators) (aggregationLength : Int)
    (isV6 : Bool) (poolAddresses : List String) (err : ValidationError)
    (h : validateAggregationLength env aggregationLength isV6 poolAddresses = .error err) :
    isAggregationError err = true := by
  unfold validateAggregationLength at h
  split at h
  · cases h; rfl
  · split at h
    · cases h; rfl
    · split at h
      · rename_i e hloop
        cases h
        exact cidrsPerAddressesLoop_error_kind env aggregationLength poolAddresses [] _ hloop
      · rename_i m hloop
        rcases aggregationLoop_cases aggregationLength isV6 (env.rangeOrder m) with
          ⟨hok, _⟩ | ⟨kv, _, _, herr⟩
        · rw [hok] at h; cases h
        · rw [herr] at h; cases h; rfl

theorem isMalformedCommunity_of_isAggregationError (err : ValidationError)
    (h : isAggregationError err = true) : isMalformedCommunity err = false := by
  cases err <;> simp [isAggregationError] at h <;> rfl

/-- The verdict of `validateAggregationLength` only depends on `parseCIDR`: the
order in which the map is ranged over, and the rest of the collaborators, play
no part. -/
theorem validateAggregationLength_accepted_congr (env1 env2 : Collaborators)
    (hparse : env1.parseCIDR = env2.parseCIDR) (aggregationLength : Int) (isV6 : Bool)
    (poolAddresses : List String) :
    accepted (validateAggregationLength env1 aggregationLength isV6 poolAddresses)
      = accepted (validateAggregationLength env2 aggregationLength isV6 poolAddresses) := by
  have hres : ∀ s, resolves env1 s = resolves env2 s := by
    intro s; unfold resolves; rw [hparse]
  have hcidrs : ∀ s, resolvedCIDRs env1 s = resolvedCIDRs env2 s := by
    intro s; unfold resolvedCIDRs; rw [hparse]
  rw [Bool.eq_iff_iff, validateAggregationLength_accepted_iff,
    validateAggregationLength_accepted_iff]
  simp only [hres, hcidrs]

/-- The verdict of `validateAggregationLength` only depends on which address
specifications the list holds, not on their order or their number of
occurrences. -/
theorem validateAggregationLength_accepted_of_same_members (env : Collaborators)
    (aggregationLength : Int) (isV6 : Bool) (l1 l2 : List String)
    (h : ∀ s, s ∈ l1 ↔ s ∈ l2) :
    accepted (validateAggregationLength env aggregationLength isV6 l1)
      = accepted (validateAggregationLength env aggregationLength isV6 l2) := by
  rw [Bool.eq_iff_iff, validateAggregationLength_accepted_iff,
    validateAggregationLength_accepted_iff]
  simp only [h]

theorem entryPasses_mono (l1 l2 : Int) (isV6 : Bool) (cidrs : List IPNet) (hle : l1 ≤ l2)
    (h : entryPasses l1 isV6 cidrs = true) : entryPasses l2 isV6 cidrs = true := by
  unfold entryPasses at h ⊢
  simp only [Bool.or_eq_true, decide_eq_true_eq] at h ⊢
  rcases h with h | h
  · exact Or.inl h
  · exact Or.inr (le_trans h hle)

/-- With blocks that are not skipped, a length below the least size of the
network part does not pass: in particular no negative length does. -/
theorem entryPasses_lower_bound (aggregationLength : Int) (isV6 : Bool) (cidrs : List IPNet)
    (hne : cidrs ≠ []) (hskip : familySkip isV6 cidrs = false)
    (hsize : ∀ c ∈ cidrs, c.ones ≤ 128)
    (h : entryPasses aggregationLength isV6 cidrs = true) :
    (lowestMask cidrs : Int) ≤ aggregationLength := by
  obtain ⟨m, hm, hle⟩ := (entryPasses_iff aggregationLength isV6 cidrs hsize).mp h hne hskip
  rw [(lowestMask_isLeast cidrs hne).unique hm]
  exact hle

/-- The run of `validateAggregationLength` on a single address specification
that resolves, within the bound of the family. -/
theorem validateAggregationLength_single (env : Collaborators) (aggregationLength : Int)
    (isV6 : Bool) (spec : String) (cidrs : List IPNet)
    (hparse : env.parseCIDR spec = .ok cidrs)
    (hbound : withinFamilyBound aggregationLength isV6) :
    validateAggregationLength env aggregationLength isV6 [spec]
      = aggregationLoop aggregationLength isV6 [(spec, cidrs)] := by
  unfold withinFamilyBound at hbound
  unfold validateAggregationLength
  have h6 : ¬ (isV6 = true ∧ aggregationLength > 128) := by
    rintro ⟨h1, h2⟩
    rw [if_pos h1] at hbound
    exact absurd hbound (not_le.mpr h2)
  have h4 : ¬ (¬ isV6 = true ∧ aggregationLength > 32) := by
    rintro ⟨h1, h2⟩
    rw [if_neg h1] at hbound
    exact absurd hbound (not_le.mpr h2)
  rw [if_neg h6, if_neg h4]
  simp only [cidrsPerAddressesLoop, hparse, mapAssign]
  rw [List.perm_singleton.mp (env.rangeOrder_perm [(spec, cidrs)])]

/-- An IPv4 aggregation length is checked against every block of the pool, the
IPv6 blocks too: when some address specification resolves to blocks whose
network part is longer than 32 bits, no IPv4 aggregation length is accepted. -/
theorem validateAggregationLength_v4_rejected_by_long_block (env : Collaborators)
    (aggregationLength : Int) (poolAddresses : List String) (spec : String)
    (hspec : spec ∈ poolAddresses) (hne : resolvedCIDRs env spec ≠ [])
    (hsize : ∀ c ∈ resolvedCIDRs env spec, 32 < c.ones ∧ c.ones ≤ 128) :
    accepted (validateAggregationLength env aggregationLength false poolAddresses)
      = false := by
  rw [← Bool.not_eq_true, validateAggregationLength_accepted_iff]
  rintro ⟨hbound, _, hall⟩
  have hskip : familySkip false (resolvedCIDRs env spec) = false := by
    unfold familySkip
    split <;> rfl
  have hlow := entryPasses_lower_bound aggregationLength false _ hne hskip
    (fun c hc => (hsize c hc).2) (hall spec hspec)
  obtain ⟨c, hc, hcones⟩ := (lowestMask_isLeast _ hne).1
  have h32 : 32 < lowestMask (resolvedCIDRs env spec) := hcones ▸ (hsize c hc).1
  have hb : aggregationLength ≤ 32 := by simpa using hbound
  have : (32 : Int) < (lowestMask (resolvedCIDRs env spec) : Int) := by exact_mod_cast h32
  omega

/-- C11, on the code: with the addresses `10.0.0.0/24` and `2001:db8::/32`, the
IPv4 aggregation length 24 is rejected as too broad for `2001:db8::/32`, while
it is accepted once the IPv6 specification is removed; the IPv6 length 32 is
accepted on the same list, where the IPv4 specification is skipped. -/
theorem validateAggregationLength_v4_checked_against_v6 :
    validateAggregationLength specCollaborators 24 false ["10.0.0.0/24", "2001:db8::/32"]
        = .error (.aggregationTooBroad 24 32 "2001:db8::/32")
      ∧ validateAggregationLength specCollaborators 24 false ["10.0.0.0/24"] = .ok ()
      ∧ validateAggregationLength specCollaborators 32 true ["10.0.0.0/24", "2001:db8::/32"]
          = .ok ()
      ∧ validateAggregationLength specCollaborators 32 true ["2001:db8::/32"] = .ok () := by
  decide

/-- The check of one map entry fails exactly when there are blocks, the
family-skip rule does not apply, and the length is below the size of the
network part of every block. -/
theorem entryPasses_eq_false_iff (aggregationLength : Int) (isV6 : Bool)
    (cidrs : List IPNet) (hsize : ∀ c ∈ cidrs, c.ones ≤ 128) :
    entryPasses aggregationLength isV6 cidrs = false
      ↔ cidrs ≠ [] ∧ familySkip isV6 cidrs = false
        ∧ ∀ c ∈ cidrs, aggregationLength < (c.ones : Int) := by
  rw [← Bool.not_eq_true, entryPasses_iff aggregationLength isV6 cidrs hsize]
  constructor
  · intro h
    push_neg at h
    obtain ⟨hne, hskip, hall⟩ := h
    refine ⟨hne, hskip, ?_⟩
    intro c hc
    have hleast := lowestMask_isLeast cidrs hne
    have h1 := hall (lowestMask cidrs) hleast
    have h2 : (lowestMask cidrs : Int) ≤ (c.ones : Int) := by
      exact_mod_cast hleast.2 ⟨c, hc, rfl⟩
    omega
  · rintro ⟨hne, hskip, hall⟩ h
    obtain ⟨m, hm, hle⟩ := h hne hskip
    obtain ⟨c, hc, hcones⟩ := hm.1
    have := hall c hc
    rw [hcones] at this
    omega

/-- The check of one map entry passes exactly when, if there are blocks and the
family-skip rule does not apply, some block has a network part of at most the
length. -/
theorem entryPasses_eq_true_iff (aggregationLength : Int) (isV6 : Bool)
    (cidrs : List IPNet) (hsize : ∀ c ∈ cidrs, c.ones ≤ 128) :
    entryPasses aggregationLength isV6 cidrs = true
      ↔ (cidrs ≠ [] → familySkip isV6 cidrs = false
          → ∃ c ∈ cidrs, (c.ones : Int) ≤ aggregationLength) := by
  constructor
  · intro h hne hskip
    by_contra hno
    push_neg at hno
    have hfalse := (entryPasses_eq_false_iff aggregationLength isV6 cidrs hsize).mpr
      ⟨hne, hskip, hno⟩
    rw [h] at hfalse
    exact Bool.noConfusion hfalse
  · intro h
    by_contra hne
    have hfalse : entryPasses aggregationLength isV6 cidrs = false := by simpa using hne
    obtain ⟨h1, h2, h3⟩ :=
      (entryPasses_eq_false_iff aggregationLength isV6 cidrs hsize).mp hfalse
    obtain ⟨c, hc, hle⟩ := h h1 h2
    have := h3 c hc
    omega

/-- The two outcomes of `validateAggregationLength` for a length within the
bound of the family on a list of address specifications that all resolve: every
specification passes and the result is `nil`, or some specification does not
pass and the result is the too-broad error for one that does not. -/
theorem validateAggregationLength_cases (env : Collaborators) (aggregationLength : Int)
    (isV6 : Bool) (poolAddresses : List String)
    (hbound : withinFamilyBound aggregationLength isV6)
    (hres : ∀ s ∈ poolAddresses, resolves env s = true) :
    (validateAggregationLength env aggregationLength isV6 poolAddresses = .ok ()
        ∧ ∀ s ∈ poolAddresses,
            entryPasses aggregationLength isV6 (resolvedCIDRs env s) = true)
      ∨ ∃ s ∈ poolAddresses,
          entryPasses aggregationLength isV6 (resolvedCIDRs env s) = false
          ∧ validateAggregationLength env aggregationLength isV6 poolAddresses
              = .error (.aggregationTooBroad aggregationLength
                  (lowestMask (resolvedCIDRs env s)) s) := by
  unfold withinFamilyBound at hbound
  unfold validateAggregationLength
  have h6 : ¬ (isV6 = true ∧ aggregationLength > 128) := by
    rintro ⟨h1, h2⟩
    rw [if_pos h1] at hbound
    exact absurd hbound (not_le.mpr h2)
  have h4 : ¬ (¬ isV6 = true ∧ aggregationLength > 32) := by
    rintro ⟨h1, h2⟩
    rw [if_neg h1] at hbound
    exact absurd hbound (not_le.mpr h2)
  rw [if_neg h6, if_neg h4]
  obtain ⟨m2, hok, hmem⟩ := cidrsPerAddressesLoop_resolved env aggregationLength
    poolAddresses [] hres (by simp)
  rw [hok]
  simp only
  have hperm := env.rangeOrder_perm m2
  rcases aggregationLoop_cases aggregationLength isV6 (env.rangeOrder m2) with
    ⟨hloop, hall⟩ | ⟨kv, hkv, hfail, herr⟩
  · left
    refine ⟨hloop, ?_⟩
    intro s hs
    have h1 : (s, resolvedCIDRs env s) ∈ m2 := (hmem _).mpr (Or.inr ⟨hs, rfl⟩)
    exact hall _ (hperm.mem_iff.mpr h1)
  · right
    have h1 := (hmem kv).mp (hperm.mem_iff.mp hkv)
    simp only [List.not_mem_nil, false_or] at h1
    refine ⟨kv.1, h1.1, ?_, ?_⟩
    · rw [← h1.2]; exact hfail
    · rw [← h1.2]; exact herr

/-- C18, as stated, fails: the range `10.0.0.1-10.0.0.6` resolves to blocks of
sizes 32, 31, 31 and 32.  The IPv4 length 33 is rejected, as out of range,
though a block has a size of at most 33; the IPv6 length 20 is accepted, though
it is smaller than the size of every block, because the specification is
skipped; and the IPv4 length 31 is rejected when the pool has another
specification, `10.0.1.1`, whose block has size 32. -/
theorem range_spec_not_decided_by_lowestMask :
    (resolvedCIDRs specCollaborators "10.0.0.1-10.0.0.6").map IPNet.ones = [32, 31, 31, 32]
      ∧ validateAggregationLength specCollaborators 33 false ["10.0.0.1-10.0.0.6"]
          = .error (.aggregationLengthIPv4 33)
      ∧ validateAggregationLength specCollaborators 20 true ["10.0.0.1-10.0.0.6"] = .ok ()
      ∧ validateAggregationLength specCollaborators 31 false ["10.0.0.1-10.0.0.6", "10.0.1.1"]
          = .error (.aggregationTooBroad 31 32 "10.0.1.1") := by
  decide

/-- C18, amended. `lowestMask` returns 0 for the empty list; for a non-empty
list it returns the minimum of the sizes of the network part: at most the size
of every block, and the size of some block.  Hence, for a length within the
bound of its family and a pool whose address specifications all resolve (to
blocks of at most 128 bits): on a pool of one specification that has blocks and
is not skipped by the family-skip rule, the result is the too-broad error
exactly when the length is smaller than the size of every block, and `nil`
exactly when some block has a size of at most the length; on any pool, the
result is the too-broad error for a specification exactly when some
specification that has blocks and is not skipped has the length smaller than
the size of every one of its blocks, and `nil` exactly when every such
specification has a block of size at most the length. -/
theorem lowestMask_minimum :
    lowestMask [] = 0
      ∧ (∀ cidrs : List IPNet, cidrs ≠ []
          → (∀ c ∈ cidrs, lowestMask cidrs ≤ c.ones) ∧ ∃ c ∈ cidrs, lowestMask cidrs = c.ones)
      ∧ (∀ (env : Collaborators) (aggregationLength : Int) (isV6 : Bool) (spec : String)
            (cidrs : List IPNet),
          env.parseCIDR spec = .ok cidrs → cidrs ≠ [] → familySkip isV6 cidrs = false
          → (∀ c ∈ cidrs, c.ones ≤ 128) → withinFamilyBound aggregationLength isV6
          → (validateAggregationLength env aggregationLength isV6 [spec]
                = .error (.aggregationTooBroad aggregationLength (lowestMask cidrs) spec)
              ↔ ∀ c ∈ cidrs, aggregationLength < (c.ones : Int))
            ∧ (validateAggregationLength env aggregationLength isV6 [spec] = .ok ()
              ↔ ∃ c ∈ cidrs, (c.ones : Int) ≤ aggregationLength))
      ∧ (∀ (env : Collaborators) (aggregationLength : Int) (isV6 : Bool)
            (poolAddresses : List String),
          withinFamilyBound aggregationLength isV6
          → (∀ s ∈ poolAddresses, resolves env s = true)
          → (∀ s ∈ poolAddresses, ∀ c ∈ resolvedCIDRs env s, c.ones ≤ 128)
          → ((∃ s ∈ poolAddresses,
                  validateAggregationLength env aggregationLength isV6 poolAddresses
                    = .error (.aggregationTooBroad aggregationLength
                        (lowestMask (resolvedCIDRs env s)) s))
                ↔ ∃ s ∈ poolAddresses, resolvedCIDRs env s ≠ []
                    ∧ familySkip isV6 (resolvedCIDRs env s) = false
                    ∧ ∀ c ∈ resolvedCIDRs env s, aggregationLength < (c.ones : Int))
            ∧ (validateAggregationLength env aggregationLength isV6 poolAddresses = .ok ()
                ↔ ∀ s ∈ poolAddresses, resolvedCIDRs env s ≠ []
                    → familySkip isV6 (resolvedCIDRs env s) = false
                    → ∃ c ∈ resolvedCIDRs env s, (c.ones : Int) ≤ aggregationLength)) := by
  refine ⟨rfl, ?_, ?_, ?_⟩
  · intro cidrs hne
    have h := lowestMask_isLeast cidrs hne
    refine ⟨fun c hc => h.2 ⟨c, hc, rfl⟩, ?_⟩
    obtain ⟨c, hc, hcones⟩ := h.1
    exact ⟨c, hc, hcones.symm⟩
  · intro env aggregationLength isV6 spec cidrs hparse hne hskip hsize hbound
    have hleast := lowestMask_isLeast cidrs hne
    obtain ⟨c0, hc0, hc0ones⟩ := hleast.1
    have hlt : lowestMask cidrs < 2 ^ 31 :=
      lt_of_le_of_lt (hc0ones ▸ hsize c0 hc0) (by norm_num)
    have hrun : validateAggregationLength env aggregationLength isV6 [spec]
        = if aggregationLength < (lowestMask cidrs : Int) then
            .error (.aggregationTooBroad aggregationLength (lowestMask cidrs) spec)
          else .ok () := by
      rw [validateAggregationLength_single env aggregationLength isV6 spec cidrs hparse hbound]
      cases cidrs with
      | nil => exact absurd rfl hne
      | cons c rest =>
        have hskip2 : (isV6 && c.isIPv4) = false := hskip
        simp only [aggregationLoop, hskip2, Bool.false_eq_true, if_false,
          toInt32_of_lt _ hlt]
    rw [hrun]
    by_cases hlow : aggregationLength < (lowestMask cidrs : Int)
    · rw [if_pos hlow]
      have hall : ∀ c ∈ cidrs, aggregationLength < (c.ones : Int) := by
        intro c hc
        have : (lowestMask cidrs : Int) ≤ (c.ones : Int) := by
          exact_mod_cast hleast.2 ⟨c, hc, rfl⟩
        omega
      refine ⟨iff_of_true rfl hall, iff_of_false (by simp) ?_⟩
      rintro ⟨c, hc, hle⟩
      have := hall c hc
      omega
    · rw [if_neg hlow]
      have hex : ∃ c ∈ cidrs, (c.ones : Int) ≤ aggregationLength :=
        ⟨c0, hc0, by rw [hc0ones]; omega⟩
      refine ⟨iff_of_false (by simp) ?_, iff_of_true rfl hex⟩
      intro hall
      obtain ⟨c, hc, hle⟩ := hex
      have := hall c hc
      omega
  · intro env aggregationLength isV6 poolAddresses hbound hres hsize
    rcases validateAggregationLength_cases env aggregationLength isV6 poolAddresses hbound
        hres with ⟨hok, hall⟩ | ⟨s, hs, hfail, herr⟩
    · have hpass : ∀ s ∈ poolAddresses, resolvedCIDRs env s ≠ []
          → familySkip isV6 (resolvedCIDRs env s) = false
          → ∃ c ∈ resolvedCIDRs env s, (c.ones : Int) ≤ aggregationLength :=
        fun s hs =>
          (entryPasses_eq_true_iff aggregationLength isV6 _ (hsize s hs)).mp (hall s hs)
      refine ⟨iff_of_false ?_ ?_, iff_of_true hok hpass⟩
      · rintro ⟨s, _, herr⟩
        rw [hok] at herr
        cases herr
      · rintro ⟨s, hs, hne, hskip, hlow⟩
        obtain ⟨c, hc, hle⟩ := hpass s hs hne hskip
        have := hlow c hc
        omega
    · have hbad := (entryPasses_eq_false_iff aggregationLength isV6 _ (hsize s hs)).mp hfail
      refine ⟨iff_of_true ⟨s, hs, herr⟩ ⟨s, hs, hbad⟩, iff_of_false (by rw [herr]; simp) ?_⟩
      intro hpass
      obtain ⟨c, hc, hle⟩ := hpass s hs hbad.1 hbad.2.1
      have := hbad.2.2 c hc
      omega

/-- C18 amended, on examples: the range `10.0.0.1-10.0.0.6` resolves to blocks
of sizes 32, 31, 31 and 32; alone in the pool, the length 31 is accepted and the
length 30 is too broad; with the address `10.0.1.1` in the pool as well, the
length 32 is accepted. -/
theorem lowestMask_range_example :
    (resolvedCIDRs specCollaborators "10.0.0.1-10.0.0.6").map IPNet.ones = [32, 31, 31, 32]
      ∧ lowestMask (resolvedCIDRs specCollaborators "10.0.0.1-10.0.0.6") = 31
      ∧ validateAggregationLength specCollaborators 31 false ["10.0.0.1-10.0.0.6"] = .ok ()
      ∧ validateAggregationLength specCollaborators 30 false ["10.0.0.1-10.0.0.6"]
          = .error (.aggregationTooBroad 30 31 "10.0.0.1-10.0.0.6")
      ∧ validateAggregationLength specCollaborators 32 false ["10.0.0.1-10.0.0.6", "10.0.1.1"]
          = .ok () :=
  ⟨by decide, by decide,
   ((lowestMask_minimum.2.2.1 specCollaborators 31 false "10.0.0.1-10.0.0.6"
      (resolvedCIDRs specCollaborators "10.0.0.1-10.0.0.6") (by decide) (by decide)
      (by decide) (by decide) (by decide)).2).mpr (by decide),
   ((lowestMask_minimum.2.2.1 specCollaborators 30 false "10.0.0.1-10.0.0.6"
      (resolvedCIDRs specCollaborators "10.0.0.1-10.0.0.6") (by decide) (by decide)
      (by decide) (by decide) (by decide)).1).mpr (by decide),
   ((lowestMask_minimum.2.2.2 specCollaborators 32 false ["10.0.0.1-10.0.0.6", "10.0.1.1"]
      (by decide) (by decide) (by decide)).2).mpr (by decide)⟩

/-- C20. Acceptance of an aggregation length is upward-closed within the bound
of the family: when `validateAggregationLength` accepts a length, it accepts
every greater length that is within the bound (32 for IPv4, 128 for IPv6). -/
theorem validateAggregationLength_upward_closed (env : Collaborators) (l1 l2 : Int)
    (isV6 : Bool) (poolAddresses : List String) (hle : l1 ≤ l2)
    (hacc : validateAggregationLength env l1 isV6 poolAddresses = .ok ())
    (hbound : withinFamilyBound l2 isV6) :
    validateAggregationLength env l2 isV6 poolAddresses = .ok () := by
  rw [← verdict_accepted_iff, validateAggregationLength_accepted_iff] at hacc ⊢
  obtain ⟨_, hres, hall⟩ := hacc
  exact ⟨hbound, hres, fun s hs => entryPasses_mono l1 l2 isV6 _ hle (hall s hs)⟩

/-- C20, on an example: the length 24 is accepted for `10.0.0.0/24`, hence so
is the length 32; the length 33 is beyond the bound of IPv4. -/
theorem validateAggregationLength_upward_closed_example :
    validateAggregationLength specCollaborators 32 false ["10.0.0.0/24"] = .ok ()
      ∧ validateAggregationLength specCollaborators 33 false ["10.0.0.0/24"]
          = .error (.aggregationLengthIPv4 33) :=
  ⟨validateAggregationLength_upward_closed specCollaborators 24 32 false ["10.0.0.0/24"]
      (by decide) (by decide) (by decide),
   by decide⟩

/-! ## The loop over the advertisements -/

theorem communitiesLoop_error_malformed (communities : List String) (err : ValidationError)
    (h : communitiesLoop communities = .error err) : isMalformedCommunity err = true := by
  induction communities with
  | nil => simp [communitiesLoop] at h
  | cons c rest ih =>
    rw [communitiesLoop] at h
    cases hc : validateCommunity c with
    | error e =>
      rw [hc] at h
      cases h
      exact validateCommunity_error_malformed c _ hc
    | ok u =>
      rw [hc] at h
      exact ih h

/-- The checks of one advertisement, in the order of the source: the duplicate
communities, the IPv4 aggregation length, the IPv6 aggregation length, and last
the form of each community. -/
theorem validateAdvertisement_stages (env : Collaborators) (poolAddresses : List String)
    (adv : BgpAdvertisement) :
    (∀ err, validateDuplicateCommunities (sliceElems adv.Communities) = .error err
        → validateAdvertisement env poolAddresses adv = .error err)
      ∧ (validateDuplicateCommunities (sliceElems adv.Communities) = .ok ()
          → (∀ l err, adv.AggregationLength = some l
              → validateAggregationLength env l false poolAddresses = .error err
              → validateAdvertisement env poolAddresses adv = .error err)
            ∧ ((∀ l, adv.AggregationLength = some l
                  → validateAggregationLength env l false poolAddresses = .ok ())
                → (∀ l err, adv.AggregationLengthV6 = some l
                    → validateAggregationLength env l true poolAddresses = .error err
                    → validateAdvertisement env poolAddresses adv = .error err)
                  ∧ ((∀ l, adv.AggregationLengthV6 = some l
                        → validateAggregationLength env l true poolAddresses = .ok ())
                      → validateAdvertisement env poolAddresses adv
                          = communitiesLoop (sliceElems adv.Communities)))) := by
  obtain ⟨agg4, agg6, comms⟩ := adv
  refine ⟨?_, ?_⟩
  · intro err h
    simp [validateAdvertisement, h]
  · intro hdup
    refine ⟨?_, ?_⟩
    · intro l err hl h
      simp only at hl
      subst hl
      simp [validateAdvertisement, hdup, h]
    · intro h4
      refine ⟨?_, ?_⟩
      · intro l err hl h
        simp only at hl
        subst hl
        cases agg4 with
        | none => simp [validateAdvertisement, hdup, h]
        | some l4 => simp [validateAdvertisement, hdup, h, h4 l4 rfl]
      · intro h6
        cases agg4 with
        | none =>
          cases agg6 with
          | none => simp [validateAdvertisement, hdup]
          | some l6 => simp [validateAdvertisement, hdup, h6 l6 rfl]
        | some l4 =>
          cases agg6 with
          | none => simp [validateAdvertisement, hdup, h4 l4 rfl]
          | some l6 => simp [validateAdvertisement, hdup, h4 l4 rfl, h6 l6 rfl]

/-- An advertisement that passes its checks has passed each of them. -/
theorem validateAdvertisement_ok (env : Collaborators) (poolAddresses : List String)
    (adv : BgpAdvertisement) (h : validateAdvertisement env poolAddresses adv = .ok ()) :
    validateDuplicateCommunities (sliceElems adv.Communities) = .ok ()
      ∧ (∀ l, adv.AggregationLength = some l
          → validateAggregationLength env l false poolAddresses = .ok ())
      ∧ (∀ l, adv.AggregationLengthV6 = some l
          → validateAggregationLength env l true poolAddresses = .ok ())
      ∧ communitiesLoop (sliceElems adv.Communities) = .ok () := by
  have hst := validateAdvertisement_stages env poolAddresses adv
  have hdup : validateDuplicateCommunities (sliceElems adv.Communities) = .ok () := by
    cases hd : validateDuplicateCommunities (sliceElems adv.Communities) with
    | ok u => rfl
    | error err => rw [hst.1 err hd] at h; cases h
  have h4 : ∀ l, adv.AggregationLength = some l
      → validateAggregationLength env l false poolAddresses = .ok () := by
    intro l hl
    cases hv : validateAggregationLength env l false poolAddresses with
    | ok u => rfl
    | error err => rw [(hst.2 hdup).1 l err hl hv] at h; cases h
  have h6 : ∀ l, adv.AggregationLengthV6 = some l
      → validateAggregationLength env l true poolAddresses = .ok () := by
    intro l hl
    cases hv : validateAggregationLength env l true poolAddresses with
    | ok u => rfl
    | error err => rw [(((hst.2 hdup).2 h4).1) l err hl hv] at h; cases h
  exact ⟨hdup, h4, h6, by rw [← ((hst.2 hdup).2 h4).2 h6]; exact h⟩

theorem advertisementsLoop_ok_iff (env : Collaborators) (poolAddresses : List String)
    (advs : List BgpAdvertisement) :
    advertisementsLoop env poolAddresses advs = .ok ()
      ↔ ∀ a ∈ advs, validateAdvertisement env poolAddresses a = .ok () := by
  induction advs with
  | nil => simp [advertisementsLoop]
  | cons a rest ih =>
    rw [advertisementsLoop]
    cases ha : validateAdvertisement env poolAddresses a with
    | error err => simp [ha]
    | ok u => simp [ha, ih]

theorem advertisementsLoop_first_failure (env : Collaborators) (poolAddresses : List String)
    (before : List BgpAdvertisement) (adv : BgpAdvertisement) (after : List BgpAdvertisement)
    (err : ValidationError)
    (hbefore : ∀ a ∈ before, validateAdvertisement env poolAddresses a = .ok ())
    (hadv : validateAdvertisement env poolAddresses adv = .error err) :
    advertisementsLoop env poolAddresses (before ++ adv :: after) = .error err := by
  induction before with
  | nil => simp [advertisementsLoop, hadv]
  | cons a rest ih =>
    rw [List.cons_append, advertisementsLoop, hbefore a (List.mem_cons_self _ _)]
    exact ih (fun x hx => hbefore x (List.mem_cons_of_mem _ hx))

theorem validateBGPAdvertisements_ok_iff (env : Collaborators)
    (advs : List BgpAdvertisement) (poolAddresses : List String) :
    validateBGPAdvertisements env advs poolAddresses = .ok ()
      ↔ validateDuplicateAdvertisements advs = .ok ()
        ∧ ∀ a ∈ advs, validateAdvertisement env poolAddresses a = .ok () := by
  unfold validateBGPAdvertisements
  by_cases hlen : advs.length = 0
  · have : advs = [] := List.length_eq_zero.mp hlen
    subst this
    simp [validateDuplicateAdvertisements]
  · rw [if_neg hlen, ← advertisementsLoop_ok_iff]
    cases hd : validateDuplicateAdvertisements advs with
    | error err => simp
    | ok u => simp

theorem validateBGPAdvertisements_first_failure (env : Collaborators)
    (advs : List BgpAdvertisement) (poolAddresses : List String)
    (before : List BgpAdvertisement) (adv : BgpAdvertisement) (after : List BgpAdvertisement)
    (err : ValidationError)
    (hdup : validateDuplicateAdvertisements advs = .ok ())
    (heq : advs = before ++ adv :: after)
    (hbefore : ∀ a ∈ before, validateAdvertisement env poolAddresses a = .ok ())
    (hadv : validateAdvertisement env poolAddresses adv = .error err) :
    validateBGPAdvertisements env advs poolAddresses = .error err := by
  have hlen : advs.length ≠ 0 := by
    rw [heq]
    simp
  unfold validateBGPAdvertisements
  rw [if_neg hlen, hdup]
  simp only
  rw [heq]
  exact advertisementsLoop_first_failure env poolAddresses before adv after err hbefore hadv

/-- C12, as stated, fails: no lower bound is checked.  A negative IPv4 length
is accepted for a pool without addresses, and a negative IPv6 length for a pool
with IPv4 addresses only. -/
theorem negative_aggregation_length_accepted :
    validateBGPAdvertisements specCollaborators [⟨some (-5), none, none⟩] [] = .ok ()
      ∧ validateBGPAdvertisements specCollaborators [⟨none, some (-1), none⟩] ["10.0.0.0/24"]
          = .ok ()
      ∧ validateAddressPool specCollaborators (mkPool "p" "bgp" [] [⟨some (-5), none, none⟩])
          true [] = .ok () := by
  decide

/-- C12, amended. When `validateBGPAdvertisements` accepts a list of
advertisements, every `aggregationLength` that is present is at most 32 and
every `aggregationLengthV6` that is present is at most 128.  A length that is
present is moreover not negative when some address specification of the pool
resolves to at least one block (of at most 128 bits; for the IPv6 length, a
specification that the family-skip rule does not skip). -/
theorem validateBGPAdvertisements_lengths_bounded (env : Collaborators)
    (advs : List BgpAdvertisement) (poolAddresses : List String)
    (hacc : validateBGPAdvertisements env advs poolAddresses = .ok ())
    (adv : BgpAdvertisement) (hadv : adv ∈ advs) :
    (∀ l, adv.AggregationLength = some l
        → l ≤ 32
          ∧ ((∃ s ∈ poolAddresses, resolvedCIDRs env s ≠ []
                ∧ ∀ c ∈ resolvedCIDRs env s, c.ones ≤ 128)
              → 0 ≤ l))
      ∧ (∀ l, adv.AggregationLengthV6 = some l
          → l ≤ 128
            ∧ ((∃ s ∈ poolAddresses, resolvedCIDRs env s ≠ []
                  ∧ familySkip true (resolvedCIDRs env s) = false
                  ∧ ∀ c ∈ resolvedCIDRs env s, c.ones ≤ 128)
                → 0 ≤ l)) := by
  have hone := validateAdvertisement_ok env poolAddresses adv
    (((validateBGPAdvertisements_ok_iff env advs poolAddresses).mp hacc).2 adv hadv)
  have hnonneg : ∀ (l : Int) (isV6 : Bool),
      validateAggregationLength env l isV6 poolAddresses = .ok ()
      → withinFamilyBound l isV6
        ∧ ∀ s ∈ poolAddresses, resolvedCIDRs env s ≠ []
            → familySkip isV6 (resolvedCIDRs env s) = false
            → (∀ c ∈ resolvedCIDRs env s, c.ones ≤ 128) → 0 ≤ l := by
    intro l isV6 hv
    rw [← verdict_accepted_iff, validateAggregationLength_accepted_iff] at hv
    refine ⟨hv.1, ?_⟩
    intro s hs hne hskip hsize
    have := entryPasses_lower_bound l isV6 _ hne hskip hsize (hv.2.2 s hs)
    have h0 : (0 : Int) ≤ (lowestMask (resolvedCIDRs env s) : Int) := Int.natCast_nonneg _
    omega
  refine ⟨?_, ?_⟩
  · intro l hl
    obtain ⟨hb, hn⟩ := hnonneg l false (hone.2.1 l hl)
    refine ⟨by simpa [withinFamilyBound] using hb, ?_⟩
    rintro ⟨s, hs, hne, hsize⟩
    have hskip : familySkip false (resolvedCIDRs env s) = false := by
      unfold familySkip
      split <;> rfl
    exact hn s hs hne hskip hsize
  · intro l hl
    obtain ⟨hb, hn⟩ := hnonneg l true (hone.2.2.1 l hl)
    refine ⟨by simpa [withinFamilyBound] using hb, ?_⟩
    rintro ⟨s, hs, hne, hskip, hsize⟩
    exact hn s hs hne hskip hsize

/-- C12 amended, on an example: an accepted advertisement with the IPv4 length
24 on the pool `10.0.0.0/24`. -/
theorem validateBGPAdvertisements_lengths_bounded_example :
    validateBGPAdvertisements specCollaborators [⟨some 24, some 64, some ["65000:100"]⟩]
        ["10.0.0.0/24"] = .ok ()
      ∧ (24 : Int) ≤ 32 ∧ (0 : Int) ≤ 24 :=
  ⟨by decide,
   ((validateBGPAdvertisements_lengths_bounded specCollaborators
      [⟨some 24, some 64, some ["65000:100"]⟩] ["10.0.0.0/24"] (by decide)
      ⟨some 24, some 64, some ["65000:100"]⟩ (by decide)).1 24 rfl).1,
   ((validateBGPAdvertisements_lengths_bounded specCollaborators
      [⟨some 24, some 64, some ["65000:100"]⟩] ["10.0.0.0/24"] (by decide)
      ⟨some 24, some 64, some ["65000:100"]⟩ (by decide)).1 24 rfl).2
      ⟨"10.0.0.0/24", by decide, by decide, by decide⟩⟩

/-- C16, as stated, fails: the form of the communities is checked after the
aggregation lengths.  An advertisement with the malformed community `abc:100`
and an IPv4 length out of range, or too broad, is rejected with the error of
the aggregation length. -/
theorem malformed_community_not_reported_first :
    validateCommunity "abc:100" = .error (.invalidCommunityFirst "abc" .errSyntax)
      ∧ validateBGPAdvertisements specCollaborators [⟨some 33, none, some ["abc:100"]⟩]
          ["10.0.0.0/24"] = .error (.aggregationLengthIPv4 33)
      ∧ validateBGPAdvertisements specCollaborators [⟨some 16, none, some ["abc:100"]⟩]
          ["10.0.0.0/24"] = .error (.aggregationTooBroad 16 24 "10.0.0.0/24")
      ∧ isMalformedCommunity (.aggregationLengthIPv4 33) = false
      ∧ isMalformedCommunity (.aggregationTooBroad 16 24 "10.0.0.0/24") = false := by
  decide

/-- C16, amended. Within one advertisement the checks run in this order: the
duplicate communities, the IPv4 aggregation length, the IPv6 aggregation
length, and last the form of each community; the first violation wins.  For a
list without duplicate advertisements and its first failing advertisement: a
duplicate community is reported first; otherwise an aggregation length that is
out of range or too broad is reported with its own error, whether or not a
community is malformed; a malformed community is reported when both
aggregation lengths pass. -/
theorem validateBGPAdvertisements_first_violation (env : Collaborators)
    (advs : List BgpAdvertisement) (poolAddresses : List String)
    (before : List BgpAdvertisement) (adv : BgpAdvertisement) (after : List BgpAdvertisement)
    (hdup : validateDuplicateAdvertisements advs = .ok ())
    (heq : advs = before ++ adv :: after)
    (hbefore : ∀ a ∈ before, validateAdvertisement env poolAddresses a = .ok ()) :
    (∀ err, validateDuplicateCommunities (sliceElems adv.Communities) = .error err
        → validateBGPAdvertisements env advs poolAddresses = .error .duplicateCommunities)
      ∧ (validateDuplicateCommunities (sliceElems adv.Communities) = .ok ()
          → (∀ l err, adv.AggregationLength = some l
              → validateAggregationLength env l false poolAddresses = .error err
              → validateBGPAdvertisements env advs poolAddresses = .error err
                ∧ isAggregationError err = true ∧ isMalformedCommunity err = false)
            ∧ ((∀ l, adv.AggregationLength = some l
                  → validateAggregationLength env l false poolAddresses = .ok ())
                → (∀ l err, adv.AggregationLengthV6 = some l
                    → validateAggregationLength env l true poolAddresses = .error err
                    → validateBGPAdvertisements env advs poolAddresses = .error err
                      ∧ isAggregationError err = true ∧ isMalformedCommunity err = false)
                  ∧ ((∀ l, adv.AggregationLengthV6 = some l
                        → validateAggregationLength env l true poolAddresses = .ok ())
                      → ∀ err, communitiesLoop (sliceElems adv.Communities) = .error err
                        → validateBGPAdvertisements env advs poolAddresses = .error err
                          ∧ isMalformedCommunity err = true))) := by
  have hst := validateAdvertisement_stages env poolAddresses adv
  have hrun : ∀ err, validateAdvertisement env poolAddresses adv = .error err
      → validateBGPAdvertisements env advs poolAddresses = .error err :=
    fun err h => validateBGPAdvertisements_first_failure env advs poolAddresses before adv
      after err hdup heq hbefore h
  refine ⟨?_, ?_⟩
  · intro err h
    have herr : err = .duplicateCommunities := by
      rcases validateDuplicateCommunities_cases (sliceElems adv.Communities) with
        ⟨h1, _⟩ | ⟨h1, _⟩
      · rw [h1] at h; cases h
      · rw [h1] at h; cases h; rfl
    exact herr ▸ hrun err (hst.1 err h)
  · intro hcomm
    refine ⟨?_, ?_⟩
    · intro l err hl hv
      have hk := validateAggregationLength_error_kind env l false poolAddresses err hv
      exact ⟨hrun err ((hst.2 hcomm).1 l err hl hv), hk,
        isMalformedCommunity_of_isAggregationError err hk⟩
    · intro h4
      refine ⟨?_, ?_⟩
      · intro l err hl hv
        have hk := validateAggregationLength_error_kind env l true poolAddresses err hv
        exact ⟨hrun err (((hst.2 hcomm).2 h4).1 l err hl hv), hk,
          isMalformedCommunity_of_isAggregationError err hk⟩
      · intro h6 err hc
        refine ⟨hrun err ?_, communitiesLoop_error_malformed _ err hc⟩
        rw [((hst.2 hcomm).2 h4).2 h6]
        exact hc

/-- C16 amended, on an example: the second advertisement is the first that
fails; its IPv4 length 33 is reported, not its malformed community. -/
theorem validateBGPAdvertisements_first_violation_example :
    validateBGPAdvertisements specCollaborators
        [⟨some 24, none, some ["65000:100"]⟩, ⟨some 33, none, some ["abc:100"]⟩]
        ["10.0.0.0/24"] = .error (.aggregationLengthIPv4 33) :=
  (((validateBGPAdvertisements_first_violation specCollaborators
      [⟨some 24, none, some ["65000:100"]⟩, ⟨some 33, none, some ["abc:100"]⟩]
      ["10.0.0.0/24"] [⟨some 24, none, some ["65000:100"]⟩]
      ⟨some 33, none, some ["abc:100"]⟩ [] (by decide) rfl (by decide)).2 (by decide)).1
      33 (.aggregationLengthIPv4 33) rfl (by decide)).1

/-! ## The structure of `validateAddressPool`, and what its verdict depends on -/

theorem validateAddressPool_ok_iff (env : Collaborators) (addressPool : AddressPool)
    (isNewAddressPool : Bool) (existing : List AddressPool) :
    validateAddressPool env addressPool isNewAddressPool existing = .ok ()
      ↔ ∃ cidrs, getAddressPoolCIDRs env addressPool = .ok cidrs
          ∧ checkAdvertisements env addressPool = .ok ()
          ∧ existingPoolsLoop env addressPool isNewAddressPool cidrs existing = .ok () := by
  unfold validateAddressPool
  cases getAddressPoolCIDRs env addressPool with
  | error err => simp
  | ok cidrs =>
    cases checkAdvertisements env addressPool with
    | error err => simp
    | ok u => simp

theorem checkAdvertisements_ok_iff (env : Collaborators) (addressPool : AddressPool) :
    checkAdvertisements env addressPool = .ok ()
      ↔ addressPool.Spec.BGPAdvertisements = []
        ∨ (addressPool.Spec.Protocol = "bgp"
            ∧ validateBGPAdvertisements env addressPool.Spec.BGPAdvertisements
                addressPool.Spec.Addresses = .ok ()) := by
  unfold checkAdvertisements
  by_cases hadv : addressPool.Spec.BGPAdvertisements = []
  · simp [hadv]
  · have hlen : addressPool.Spec.BGPAdvertisements.length ≠ 0 := by
      simpa using hadv
    rw [if_pos hlen]
    by_cases hproto : addressPool.Spec.Protocol = "bgp"
    · rw [if_neg (not_not.mpr hproto)]
      cases validateBGPAdvertisements env addressPool.Spec.BGPAdvertisements
          addressPool.Spec.Addresses with
      | error err => simp [hadv]
      | ok u => simp [hproto]
    · rw [if_pos hproto]
      simp [hadv, hproto]

theorem existingPoolsLoop_cons_ok_iff (env : Collaborators) (addressPool : AddressPool)
    (isNewAddressPool : Bool) (cidrs : List IPNet) (q : AddressPool)
    (rest : List AddressPool) :
    existingPoolsLoop env addressPool isNewAddressPool cidrs (q :: rest) = .ok ()
      ↔ existingPoolsLoop env addressPool isNewAddressPool cidrs [q] = .ok ()
        ∧ existingPoolsLoop env addressPool isNewAddressPool cidrs rest = .ok () := by
  constructor
  · intro h
    have hq : existingPoolsLoop env addressPool isNewAddressPool cidrs [q] = .ok () := by
      rw [existingPoolsLoop] at h ⊢
      by_cases hname : q.Name = addressPool.Name
      · simp only [hname, if_true] at h ⊢
        cases isNewAddressPool with
        | true => simp at h
        | false => simp [existingPoolsLoop]
      · simp only [hname, if_false] at h ⊢
        cases hp : getAddressPoolCIDRs env q with
        | error err => rw [hp] at h; simp at h
        | ok existingCIDRs =>
          rw [hp] at h
          simp only at h ⊢
          cases ho : overlapOuter env addressPool.Name q.Name cidrs existingCIDRs with
          | error err => rw [ho] at h; simp at h
          | ok u => simp [existingPoolsLoop]
    refine ⟨hq, ?_⟩
    rw [← existingPoolsLoop_append env addressPool isNewAddressPool cidrs [q] rest hq]
    exact h
  · rintro ⟨hq, hrest⟩
    have := existingPoolsLoop_append env addressPool isNewAddressPool cidrs [q] rest hq
    rw [List.singleton_append] at this
    rw [this]
    exact hrest

/-- Passing the loop over a list of existing pools implies passing it over
every sublist. -/
theorem existingPoolsLoop_sublist (env : Collaborators) (addressPool : AddressPool)
    (isNewAddressPool : Bool) (cidrs : List IPNet) (sub existing : List AddressPool)
    (hsub : List.Sublist sub existing)
    (h : existingPoolsLoop env addressPool isNewAddressPool cidrs existing = .ok ()) :
    existingPoolsLoop env addressPool isNewAddressPool cidrs sub = .ok () := by
  induction hsub with
  | slnil => exact h
  | cons q _ ih =>
    exact ih ((existingPoolsLoop_cons_ok_iff env addressPool isNewAddressPool cidrs q _).mp h).2
  | cons₂ q _ ih =>
    have hboth := (existingPoolsLoop_cons_ok_iff env addressPool isNewAddressPool cidrs q _).mp h
    exact (existingPoolsLoop_cons_ok_iff env addressPool isNewAddressPool cidrs q _).mpr
      ⟨hboth.1, ih hboth.2⟩

theorem getAddressPoolCIDRsLoop_congr (env1 env2 : Collaborators)
    (hparse : env1.parseCIDR = env2.parseCIDR) (poolName : String) (specs : List String)
    (acc : List IPNet) :
    getAddressPoolCIDRsLoop env1 poolName specs acc
      = getAddressPoolCIDRsLoop env2 poolName specs acc := by
  induction specs generalizing acc with
  | nil => rfl
  | cons s rest ih =>
    rw [getAddressPoolCIDRsLoop, getAddressPoolCIDRsLoop, hparse]
    cases env2.parseCIDR s with
    | error err => rfl
    | ok nets => exact ih _

theorem overlapInner_congr (env1 env2 : Collaborators)
    (hoverlap : env1.cidrsOverlap = env2.cidrsOverlap) (poolName existingName : String)
    (existingCIDR : IPNet) (cidrs : List IPNet) :
    overlapInner env1 poolName existingName existingCIDR cidrs
      = overlapInner env2 poolName existingName existingCIDR cidrs := by
  induction cidrs with
  | nil => rfl
  | cons c rest ih => rw [overlapInner, overlapInner, hoverlap, ih]

theorem overlapOuter_congr (env1 env2 : Collaborators)
    (hoverlap : env1.cidrsOverlap = env2.cidrsOverlap) (poolName existingName : String)
    (cidrs existingCIDRs : List IPNet) :
    overlapOuter env1 poolName existingName cidrs existingCIDRs
      = overlapOuter env2 poolName existingName cidrs existingCIDRs := by
  induction existingCIDRs with
  | nil => rfl
  | cons e rest ih =>
    rw [overlapOuter, overlapOuter, overlapInner_congr env1 env2 hoverlap, ih]

theorem existingPoolsLoop_congr (env1 env2 : Collaborators)
    (hparse : env1.parseCIDR = env2.parseCIDR)
    (hoverlap : env1.cidrsOverlap = env2.cidrsOverlap) (addressPool : AddressPool)
    (isNewAddressPool : Bool) (cidrs : List IPNet) (existing : List AddressPool) :
    existingPoolsLoop env1 addressPool isNewAddressPool cidrs existing
      = existingPoolsLoop env2 addressPool isNewAddressPool cidrs existing := by
  induction existing with
  | nil => rfl
  | cons q rest ih =>
    rw [existingPoolsLoop, existingPoolsLoop, ih]
    unfold getAddressPoolCIDRs
    rw [getAddressPoolCIDRsLoop_congr env1 env2 hparse]
    cases getAddressPoolCIDRsLoop env2 q.Name q.Spec.Addresses [] with
    | error err => rfl
    | ok existingCIDRs =>
      simp only
      rw [overlapOuter_congr env1 env2 hoverlap]

theorem validateAdvertisement_ok_iff (env : Collaborators) (poolAddresses : List String)
    (adv : BgpAdvertisement) :
    validateAdvertisement env poolAddresses adv = .ok ()
      ↔ validateDuplicateCommunities (sliceElems adv.Communities) = .ok ()
        ∧ (∀ l, adv.AggregationLength = some l
            → validateAggregationLength env l false poolAddresses = .ok ())
        ∧ (∀ l, adv.AggregationLengthV6 = some l
            → validateAggregationLength env l true poolAddresses = .ok ())
        ∧ communitiesLoop (sliceElems adv.Communities) = .ok () := by
  constructor
  · exact validateAdvertisement_ok env poolAddresses adv
  · rintro ⟨hdup, h4, h6, hc⟩
    rw [(((validateAdvertisement_stages env poolAddresses adv).2 hdup).2 h4).2 h6]
    exact hc

theorem validateAggregationLength_ok_congr (env1 env2 : Collaborators)
    (hparse : env1.parseCIDR = env2.parseCIDR) (aggregationLength : Int) (isV6 : Bool)
    (poolAddresses : List String) :
    validateAggregationLength env1 aggregationLength isV6 poolAddresses = .ok ()
      ↔ validateAggregationLength env2 aggregationLength isV6 poolAddresses = .ok () := by
  rw [← verdict_accepted_iff, ← verdict_accepted_iff,
    validateAggregationLength_accepted_congr env1 env2 hparse]

theorem validateBGPAdvertisements_ok_congr (env1 env2 : Collaborators)
    (hparse : env1.parseCIDR = env2.parseCIDR) (advs : List BgpAdvertisement)
    (poolAddresses : List String) :
    validateBGPAdvertisements env1 advs poolAddresses = .ok ()
      ↔ validateBGPAdvertisements env2 advs poolAddresses = .ok () := by
  rw [validateBGPAdvertisements_ok_iff, validateBGPAdvertisements_ok_iff]
  simp only [validateAdvertisement_ok_iff,
    validateAggregationLength_ok_congr env1 env2 hparse]

/-- The verdict of `validateAddressPool` only depends on `parseCIDR` and
`cidrsOverlap`, not on the order in which maps are ranged over. -/
theorem validateAddressPool_ok_congr (env1 env2 : Collaborators)
    (hparse : env1.parseCIDR = env2.parseCIDR)
    (hoverlap : env1.cidrsOverlap = env2.cidrsOverlap) (addressPool : AddressPool)
    (isNewAddressPool : Bool) (existing : List AddressPool) :
    validateAddressPool env1 addressPool isNewAddressPool existing = .ok ()
      ↔ validateAddressPool env2 addressPool isNewAddressPool existing = .ok () := by
  have hget : getAddressPoolCIDRs env1 addressPool = getAddressPoolCIDRs env2 addressPool := by
    unfold getAddressPoolCIDRs
    exact getAddressPoolCIDRsLoop_congr env1 env2 hparse _ _ _
  rw [validateAddressPool_ok_iff, validateAddressPool_ok_iff, hget]
  simp only [checkAdvertisements_ok_iff, validateBGPAdvertisements_ok_congr env1 env2 hparse,
    existingPoolsLoop_congr env1 env2 hparse hoverlap]

/-- C13. The verdict of the validation is a function of its inputs alone.  For
collaborators that agree on `parseCIDR` and `cidrsOverlap` and range over maps
in any two orders: `validateAggregationLength` gives the same verdict for every
length, family and list of addresses; the verdict is also the same on a
permutation of the list and on the list with a specification repeated; and
`validateAddressPool` gives the same verdict for every candidate, `isNew` and
list of existing pools. -/
theorem validation_verdict_deterministic (env1 env2 : Collaborators)
    (hparse : env1.parseCIDR = env2.parseCIDR)
    (hoverlap : env1.cidrsOverlap = env2.cidrsOverlap) :
    (∀ (aggregationLength : Int) (isV6 : Bool) (poolAddresses : List String),
        accepted (validateAggregationLength env1 aggregationLength isV6 poolAddresses)
          = accepted (validateAggregationLength env2 aggregationLength isV6 poolAddresses))
      ∧ (∀ (aggregationLength : Int) (isV6 : Bool) (poolAddresses permuted : List String),
          List.Perm permuted poolAddresses
          → accepted (validateAggregationLength env1 aggregationLength isV6 permuted)
              = accepted (validateAggregationLength env2 aggregationLength isV6 poolAddresses))
      ∧ (∀ (aggregationLength : Int) (isV6 : Bool) (poolAddresses : List String)
            (spec : String), spec ∈ poolAddresses
          → accepted (validateAggregationLength env1 aggregationLength isV6
                (spec :: poolAddresses))
              = accepted (validateAggregationLength env2 aggregationLength isV6 poolAddresses))
      ∧ (∀ (addressPool : AddressPool) (isNewAddressPool : Bool)
            (existing : List AddressPool),
          accepted (validateAddressPool env1 addressPool isNewAddressPool existing)
            = accepted (validateAddressPool env2 addressPool isNewAddressPool existing)) := by
  refine ⟨?_, ?_, ?_, ?_⟩
  · exact validateAggregationLength_accepted_congr env1 env2 hparse
  · intro aggregationLength isV6 poolAddresses permuted hperm
    rw [validateAggregationLength_accepted_congr env1 env2 hparse]
    exact validateAggregationLength_accepted_of_same_members env2 aggregationLength isV6 _ _
      (fun s => hperm.mem_iff)
  · intro aggregationLength isV6 poolAddresses spec hspec
    rw [validateAggregationLength_accepted_congr env1 env2 hparse]
    apply validateAggregationLength_accepted_of_same_members
    intro s
    constructor
    · intro hs
      rcases List.mem_cons.mp hs with h | h
      · exact h ▸ hspec
      · exact h
    · exact List.mem_cons_of_mem _
  · intro addressPool isNewAddressPool existing
    rw [Bool.eq_iff_iff, verdict_accepted_iff, verdict_accepted_iff]
    exact validateAddressPool_ok_congr env1 env2 hparse hoverlap addressPool
      isNewAddressPool existing

/-- C13, on an example: ranging over the map in the order of its entries or in
the reverse order names a different address in the error, and gives the same
verdict. -/
theorem validation_verdict_deterministic_example :
    validateAggregationLength specCollaborators 16 false ["10.0.0.0/24", "10.0.1.0/25"]
        = .error (.aggregationTooBroad 16 24 "10.0.0.0/24")
      ∧ validateAggregationLength reversedCollaborators 16 false ["10.0.0.0/24", "10.0.1.0/25"]
          = .error (.aggregationTooBroad 16 25 "10.0.1.0/25")
      ∧ accepted (validateAggregationLength specCollaborators 16 false
            ["10.0.0.0/24", "10.0.1.0/25"])
          = accepted (validateAggregationLength reversedCollaborators 16 false
            ["10.0.0.0/24", "10.0.1.0/25"])
      ∧ accepted (validateAddressPool specCollaborators
            (mkPool "p" "bgp" ["10.0.0.0/24", "10.0.1.0/25"] [⟨some 25, none, none⟩]) true [])
          = accepted (validateAddressPool reversedCollaborators
            (mkPool "p" "bgp" ["10.0.0.0/24", "10.0.1.0/25"] [⟨some 25, none, none⟩]) true []) :=
  ⟨by decide, by decide,
   (validation_verdict_deterministic specCollaborators reversedCollaborators rfl rfl).1
      16 false ["10.0.0.0/24", "10.0.1.0/25"],
   (validation_verdict_deterministic specCollaborators reversedCollaborators rfl rfl).2.2.2
      (mkPool "p" "bgp" ["10.0.0.0/24", "10.0.1.0/25"] [⟨some 25, none, none⟩]) true []⟩

/-- C14. When listing the existing pools fails, `ValidateCreate` and
`ValidateUpdate` fail with the error of the client, wrapped as `Failed to get
existing addresspool objects`, whatever the candidate; when it succeeds with the
list `L`, `ValidateCreate` returns `validateAddressPool(true, L)` and
`ValidateUpdate` returns `validateAddressPool(false, L)`, whatever the old
object. -/
theorem ValidateCreate_ValidateUpdate_result (env : Collaborators)
    (addressPool old : AddressPool) :
    (∀ cause : String,
        ValidateCreate env (.error cause) addressPool = .error (.failedToGetExisting cause)
          ∧ ValidateUpdate env (.error cause) addressPool old
              = .error (.failedToGetExisting cause))
      ∧ (∀ existing : List AddressPool,
          ValidateCreate env (.ok existing) addressPool
              = validateAddressPool env addressPool true existing
            ∧ ValidateUpdate env (.ok existing) addressPool old
                = validateAddressPool env addressPool false existing)
      ∧ (∀ (addressPoolClient : AddressPoolClient) (other : AddressPool),
          ValidateUpdate env addressPoolClient addressPool old
            = ValidateUpdate env addressPoolClient addressPool other) := by
  refine ⟨fun cause => ⟨rfl, rfl⟩, fun existing => ⟨rfl, rfl⟩, fun _ _ => rfl⟩

/-- C14, on an example: a client that fails, with a candidate that would be
accepted and one that would not; and a client that lists a pool of the
candidate's name. -/
theorem ValidateCreate_ValidateUpdate_example :
    ValidateCreate specCollaborators (.error "timeout") (mkPool "p" "layer2" ["10.0.0.0/24"] [])
        = .error (.failedToGetExisting "timeout")
      ∧ ValidateUpdate specCollaborators (.error "timeout") (mkPool "p" "layer2" ["bad"] [])
          (mkPool "p" "layer2" [] []) = .error (.failedToGetExisting "timeout")
      ∧ ValidateCreate specCollaborators (.ok [mkPool "p" "layer2" ["10.0.1.0/24"] []])
          (mkPool "p" "layer2" ["10.0.0.0/24"] []) = .error (.duplicatePool "p")
      ∧ ValidateUpdate specCollaborators (.ok [mkPool "p" "layer2" ["10.0.1.0/24"] []])
          (mkPool "p" "layer2" ["10.0.0.0/24"] []) (mkPool "p" "layer2" ["10.0.1.0/24"] [])
            = .ok () :=
  ⟨((ValidateCreate_ValidateUpdate_result specCollaborators
      (mkPool "p" "layer2" ["10.0.0.0/24"] []) (mkPool "p" "layer2" [] [])).1 "timeout").1,
   by decide, by decide, by decide⟩

/-- C15. `ValidateDelete` succeeds for every pool and every state of the client:
it reads neither. -/
theorem ValidateDelete_succeeds (addressPoolClient : AddressPoolClient)
    (addressPool : AddressPool) : ValidateDelete addressPoolClient addressPool = .ok () :=
  rfl

/-- C15, on examples: pools that `validateAddressPool` rejects (an address that
does not resolve, a protocol mismatch, an overlap) are deleted, also when the
client fails. -/
theorem ValidateDelete_example :
    accepted (validateAddressPool specCollaborators (mkPool "p" "layer2" ["bad"] []) false [])
        = false
      ∧ ValidateDelete (.error "timeout") (mkPool "p" "layer2" ["bad"] []) = .ok ()
      ∧ accepted (validateAddressPool specCollaborators
            (mkPool "p" "layer2" ["10.0.0.0/24"] [⟨none, none, none⟩]) false []) = false
      ∧ ValidateDelete (.ok []) (mkPool "p" "layer2" ["10.0.0.0/24"] [⟨none, none, none⟩])
          = .ok ()
      ∧ accepted (validateAddressPool specCollaborators (mkPool "p" "layer2" ["10.0.0.0/24"] [])
            false [mkPool "q" "layer2" ["10.0.0.128/25"] []]) = false
      ∧ ValidateDelete (.ok [mkPool "q" "layer2" ["10.0.0.128/25"] []])
          (mkPool "p" "layer2" ["10.0.0.0/24"] []) = .ok () :=
  ⟨by decide,
   ValidateDelete_succeeds (.error "timeout") (mkPool "p" "layer2" ["bad"] []),
   by decide,
   ValidateDelete_succeeds (.ok []) (mkPool "p" "layer2" ["10.0.0.0/24"] [⟨none, none, none⟩]),
   by decide,
   ValidateDelete_succeeds (.ok [mkPool "q" "layer2" ["10.0.0.128/25"] []])
     (mkPool "p" "layer2" ["10.0.0.0/24"] [])⟩

/-- C17. The address specifications of the candidate are never checked against
each other: a candidate without advertisement whose specifications all resolve
is accepted against the empty list of existing pools, and, on update, against a
list that holds only a pool of its own name (its prior version), whatever its
resolved blocks. -/
theorem validateAddressPool_no_self_check (env : Collaborators) (addressPool : AddressPool)
    (hadv : addressPool.Spec.BGPAdvertisements = [])
    (hres : ∀ s ∈ addressPool.Spec.Addresses, resolves env s = true) :
    (∀ isNewAddressPool : Bool,
        validateAddressPool env addressPool isNewAddressPool [] = .ok ())
      ∧ (∀ prior : AddressPool, prior.Name = addressPool.Name
          → validateAddressPool env addressPool false [prior] = .ok ()) := by
  refine ⟨?_, ?_⟩
  · intro isNewAddressPool
    rw [validateAddressPool_ok_iff]
    exact ⟨_, getAddressPoolCIDRs_resolved env addressPool hres,
      checkAdvertisements_nil env addressPool hadv, rfl⟩
  · intro prior hprior
    rw [validateAddressPool_ok_iff]
    refine ⟨_, getAddressPoolCIDRs_resolved env addressPool hres,
      checkAdvertisements_nil env addressPool hadv, ?_⟩
    simp [existingPoolsLoop, hprior]

/-- C17, on the example: the blocks `10.0.0.0/24` and `10.0.0.128/25` of one
candidate overlap, and the candidate is accepted on creation and on update. -/
theorem validateAddressPool_no_self_check_example :
    specCidrsOverlap { IP := [10, 0, 0, 0], Mask := [255, 255, 255, 0] }
        { IP := [10, 0, 0, 128], Mask := [255, 255, 255, 128] } = true
      ∧ allResolvedCIDRs specCollaborators ["10.0.0.0/24", "10.0.0.128/25"]
          = [{ IP := [10, 0, 0, 0], Mask := [255, 255, 255, 0] },
             { IP := [10, 0, 0, 128], Mask := [255, 255, 255, 128] }]
      ∧ validateAddressPool specCollaborators
          (mkPool "p" "layer2" ["10.0.0.0/24", "10.0.0.128/25"] []) true [] = .ok ()
      ∧ validateAddressPool specCollaborators
          (mkPool "p" "layer2" ["10.0.0.0/24", "10.0.0.128/25"] []) false
          [mkPool "p" "layer2" ["10.0.0.0/24"] []] = .ok () :=
  ⟨by decide, by decide,
   (validateAddressPool_no_self_check specCollaborators
      (mkPool "p" "layer2" ["10.0.0.0/24", "10.0.0.128/25"] []) rfl (by decide)).1 true,
   (validateAddressPool_no_self_check specCollaborators
      (mkPool "p" "layer2" ["10.0.0.0/24", "10.0.0.128/25"] []) rfl (by decide)).2
      (mkPool "p" "layer2" ["10.0.0.0/24"] []) rfl⟩

/-- C19. Acceptance is anti-monotone in the existing pools: a candidate that
`validateAddressPool` accepts against a list of existing pools is accepted
against every sublist of it, for every `isNew`. -/
theorem validateAddressPool_sublist (env : Collaborators) (addressPool : AddressPool)
    (isNewAddressPool : Bool) (existing sub : List AddressPool)
    (hsub : List.Sublist sub existing)
    (hacc : validateAddressPool env addressPool isNewAddressPool existing = .ok ()) :
    validateAddressPool env addressPool isNewAddressPool sub = .ok () := by
  rw [validateAddressPool_ok_iff] at hacc ⊢
  obtain ⟨cidrs, hget, hcheck, hloop⟩ := hacc
  exact ⟨cidrs, hget, hcheck,
    existingPoolsLoop_sublist env addressPool isNewAddressPool cidrs sub existing hsub hloop⟩

/-- C19, on an example: accepted against three pools, hence against the first
and the third of them. -/
theorem validateAddressPool_sublist_example :
    validateAddressPool specCollaborators (mkPool "p" "layer2" ["10.0.0.0/24"] []) true
        [mkPool "a" "layer2" ["10.0.1.0/24"] [], mkPool "c" "layer2" ["2001:db8::/32"] []]
      = .ok () :=
  validateAddressPool_sublist specCollaborators (mkPool "p" "layer2" ["10.0.0.0/24"] []) true
    [mkPool "a" "layer2" ["10.0.1.0/24"] [], mkPool "b" "layer2" ["10.0.2.0-10.0.2.9"] [],
     mkPool "c" "layer2" ["2001:db8::/32"] []]
    [mkPool "a" "layer2" ["10.0.1.0/24"] [], mkPool "c" "layer2" ["2001:db8::/32"] []]
    (List.Sublist.cons₂ _ (List.Sublist.cons _ (List.Sublist.refl _))) (by decide)

/-- On an example: with the IPv6 block `2001:db8::/64` in the pool, every IPv4
aggregation length is rejected, the largest one too. -/
theorem validateAggregationLength_v4_rejected_by_long_block_example :
    accepted (validateAggregationLength specCollaborators 32 false
        ["10.0.0.0/24", "2001:db8::/64"]) = false
      ∧ validateAggregationLength specCollaborators 32 false ["10.0.0.0/24", "2001:db8::/64"]
          = .error (.aggregationTooBroad 32 64 "2001:db8::/64") :=
  ⟨validateAggregationLength_v4_rejected_by_long_block specCollaborators 32
      ["10.0.0.0/24", "2001:db8::/64"] "2001:db8::/64" (by decide) (by decide) (by decide),
   by decide⟩

end AddressPoolWebhook
